import Mathlib

/-!
# Wordcraft: drag sessions, the tile registry and the derived sentence

A shallow embedding of `src/script.js`.

Modelling conventions.

* JavaScript numbers are rationals: `NaN` and the infinities have no counterpart.
  `x + 'px'` is kept as the number `x`, and `parseInt` of such a string is truncation
  toward zero, as it is for every number that JavaScript prints in decimal notation.
* DOM elements are records carrying an identity `eid`; an object reference to an
  element is its `eid`.  The elements of registry tiles are stored inside the
  registry entry, palette entries in `palette`, and elements that were removed
  from the document in `detached`.
  A reference the script holds always resolves; where the model cannot resolve
  one, which the invariant `WF` excludes, the handler leaves the state as it is.
* Identities of bodies and elements come from counters, as `Body.id` does in
  Matter.js; the boundary bodies (ground, walls, platform) are left out of `world`.
* The browser layout (`getBoundingClientRect`), the window height and the bounds of
  the trash can are not part of the script: they are the fields of `Env`.
* Matter.js is external and not under `src/`.  `Body.setStatic`, `Body.setVelocity`,
  `Body.setAngularVelocity` and `Body.setPosition` are modelled from the engine
  interface the specification lists: each writes the one field it names.  What the
  library keeps besides (mass, inertia, the previous position, and the values it saves
  when a body is made static) is not modelled.  `Engine.update` moves the non-static
  bodies of the world in an arbitrary way (the argument `engine`), and `Math.random()`
  is an argument.
* The handlers are modelled as they run on mouse events; `handleTouch` only forwards
  touch events to them.  Timers (`setTimeout`), the `collisionStart` listener (it sets
  presentation classes and schedules an `updateSentence`), the renderer and the button
  label are not modelled.
-/

namespace Wordcraft

/-! ## Data model -/

/-- A point or vector `{ x, y }`. -/
structure Vec where
  x : ℚ
  y : ℚ
deriving DecidableEq

/-- A `DOMRect` as far as the script reads it. -/
structure Rect where
  left : ℚ
  top : ℚ
  right : ℚ
  bottom : ℚ
deriving DecidableEq

/-- A Matter.js rigid body as far as the script reads or writes it. -/
structure Body where
  id : Nat
  position : Vec
  velocity : Vec
  angularVelocity : ℚ
  angle : ℚ
  isStatic : Bool
deriving DecidableEq

/-- A `div.word-block`.  `left` and `top` are `style.left` and `style.top` in pixels,
`transform` is the angle the `style.transform` string was built from (`none` while the
script has never set it), `opacity` is `style.opacity`, the booleans are the classes
`dragging`, `in-sentence`, `physics-enabled` and `new-word`, `bodyId` is the
attribute `data-body-id`, and `attached` tells whether the node is in the document. -/
structure Element where
  eid : Nat
  textContent : String
  left : ℚ
  top : ℚ
  transform : Option ℚ
  opacity : Option ℚ
  dragging : Bool
  inSentence : Bool
  physicsClass : Bool
  newWord : Bool
  bodyId : Option Nat
  attached : Bool
deriving DecidableEq

/-- An entry `{ element, body, text }` of `wordBlocks`. -/
structure WordBlock where
  element : Element
  body : Body
  text : String
deriving DecidableEq

/-- What the browser supplies: `window.innerHeight`, `getBoundingClientRect` of a
word block and the bounding rectangle of `#trash-can`. -/
structure Env where
  innerHeight : ℚ
  rect : Element → Rect
  trashRect : Rect

/-- The fields of a mouse event the handlers read; `target` is the identity of
`e.target.closest('.word-block')`, if there is one. -/
structure MouseEvent where
  target : Option Nat
  clientX : ℚ
  clientY : ℚ

/-- The globals of the script together with the variables closed over by
`setupDragAndDrop` (`draggedElement`, `offset`, `isDragging`).  `world` lists the ids
of the `wordBlock` bodies that are in the engine world; `nextBodyId` and `nextElemId`
are the sources of fresh identities. -/
structure State where
  physicsEnabled : Bool
  gravityY : ℚ
  wordBlocks : List WordBlock
  world : List Nat
  palette : List Element
  detached : List Element
  sentenceWords : List WordBlock
  sentenceDisplay : String
  trashDragOver : Bool
  draggedElement : Option Nat
  offset : Vec
  isDragging : Bool
  nextBodyId : Nat
  nextElemId : Nat

/-! ## Matter.js setters -/

/-- The body `Bodies.rectangle(x, y, 80, 80, ...)` returns, with identity `id`. -/
def Bodies.rectangle (id : Nat) (x y : ℚ) : Body :=
  { id := id, position := ⟨x, y⟩, velocity := ⟨0, 0⟩, angularVelocity := 0, angle := 0,
    isStatic := false }

/-- Modelled from the spec: Matter.js is not under `src/`.  The call
`Body.setStatic(body, v)` as `setStatic(handle, bool)` of the engine interface, which
pins or unpins the body: it writes the flag `isStatic`.  The mass and inertia that the
library replaces by infinity when it pins a body, and saves to restore them when it
unpins it, are not modelled. -/
def Body.setStatic (b : Body) (v : Bool) : Body := { b with isStatic := v }

/-- Modelled from the spec: Matter.js is not under `src/`.  The call
`Body.setVelocity(body, v)` as `setVelocity(handle, {x, y})` of the engine interface: it
writes the velocity. -/
def Body.setVelocity (b : Body) (v : Vec) : Body := { b with velocity := v }

/-- Modelled from the spec: Matter.js is not under `src/`.  The call
`Body.setAngularVelocity(body, w)` as `setAngularVelocity(handle, scalar)` of the engine
interface: it writes the angular velocity. -/
def Body.setAngularVelocity (b : Body) (w : ℚ) : Body := { b with angularVelocity := w }

/-- Modelled from the spec: Matter.js is not under `src/`.  The call
`Body.setPosition(body, p)` as `setPosition(handle, {x, y})` of the engine interface: it
writes the position. -/
def Body.setPosition (b : Body) (p : Vec) : Body := { b with position := p }

/-- The value of `parseInt(x + 'px')` for a number `x` that JavaScript prints in decimal
notation (zero, or of magnitude from `1e-6` up to, but not reaching, `1e21`):
truncation toward zero.  Numbers printed with an exponent are outside this reading. -/
def parseInt (q : ℚ) : ℚ := ((Int.tdiv q.num (q.den : Int) : Int) : ℚ)

/-! ## Object references -/

/-- Apply `f` to the first entry satisfying `p` (the entry `Array.prototype.find`
returns), leaving the others as they are. -/
def modifyFirst {α : Type} (p : α → Bool) (f : α → α) : List α → List α
  | [] => []
  | a :: l => if p a then f a :: l else a :: modifyFirst p f l

/-- Dereference an element: a registry tile, a palette entry or a detached element. -/
def findElement (s : State) (eid : Nat) : Option Element :=
  match s.wordBlocks.find? (fun wb => wb.element.eid == eid) with
  | some wb => some wb.element
  | none =>
    match s.palette.find? (fun el => el.eid == eid) with
    | some el => some el
    | none => s.detached.find? (fun el => el.eid == eid)

/-- Resolve the target of a pointer event: a node of the document that is a palette
entry or the element of a registry tile. -/
def findInDocument (s : State) (eid : Nat) : Option Element :=
  (findElement { s with detached := [] } eid).filter (fun el => el.attached)

/-- Write through an element reference. -/
def modifyElement (s : State) (eid : Nat) (f : Element → Element) : State :=
  { s with
    wordBlocks := s.wordBlocks.map
      (fun wb => if wb.element.eid = eid then { wb with element := f wb.element } else wb)
    palette := s.palette.map (fun el => if el.eid = eid then f el else el)
    detached := s.detached.map (fun el => if el.eid = eid then f el else el) }

/-- Mutate the body of the registry entry `wordBlocks.find(wb => wb.body.id == bodyId)`. -/
def modifyBody (s : State) (bodyId : Nat) (f : Body → Body) : State :=
  { s with
    wordBlocks := modifyFirst (fun wb => wb.body.id == bodyId)
      (fun wb => { wb with body := f wb.body }) s.wordBlocks }

/-! ## The sentence -/

/-- The membership filter of `updateSentence`. -/
def inBand (env : Env) (physicsEnabled : Bool) (wb : WordBlock) : Bool :=
  let sentenceAreaTop := env.innerHeight - 120
  let sentenceAreaBottom := env.innerHeight - 60
  if physicsEnabled then
    let wordY := wb.body.position.y
    decide (wordY ≥ sentenceAreaTop - 80) && decide (wordY ≤ sentenceAreaBottom)
  else
    let rect := env.rect wb.element
    decide (rect.top ≥ sentenceAreaTop - 50) && decide (rect.top ≤ sentenceAreaBottom)

/-- The number the comparator of `updateSentence` subtracts. -/
def horizontal (env : Env) (physicsEnabled : Bool) (wb : WordBlock) : ℚ :=
  if physicsEnabled then wb.body.position.x else (env.rect wb.element).left

/-- The order the comparator `(a, b) => horizontal a - horizontal b` induces. -/
def before (env : Env) (physicsEnabled : Bool) (a b : WordBlock) : Prop :=
  horizontal env physicsEnabled a ≤ horizontal env physicsEnabled b

instance (env : Env) (pe : Bool) : DecidableRel (before env pe) :=
  fun a b => inferInstanceAs (Decidable (horizontal env pe a ≤ horizontal env pe b))

/-- The array `wordsInSentence`: `filter` then `sort`.  `Array.prototype.sort` is stable
and the comparator is a consistent order, so the result is the stable sorted
arrangement, computed here by insertion. -/
def wordsInSentence (env : Env) (physicsEnabled : Bool) (wbs : List WordBlock) :
    List WordBlock :=
  (wbs.filter (inBand env physicsEnabled)).insertionSort (before env physicsEnabled)

/-- The text shown while the sentence is empty. -/
def placeholder : String := "将汉字拖到下方创建句子..."

/-- The value of `sentence || placeholder`. -/
def sentenceText (words : List WordBlock) : String :=
  let sentence := String.join (words.map (fun wb => wb.text))
  if sentence = "" then placeholder else sentence

/-- Set or clear the class `in-sentence` on the element of a registry entry. -/
def WordBlock.setInSentence (wb : WordBlock) (v : Bool) : WordBlock :=
  { wb with element := { wb.element with inSentence := v } }

/-- The function `updateSentence`. -/
def updateSentence (env : Env) (s : State) : State :=
  let words := wordsInSentence env s.physicsEnabled s.wordBlocks
  { s with
    wordBlocks := s.wordBlocks.map
      (fun wb => wb.setInSentence (words.any (fun w => w.element.eid == wb.element.eid)))
    sentenceDisplay := sentenceText words
    sentenceWords := words.map (fun wb => wb.setInSentence true) }

/-! ## Creating tiles -/

/-- A fresh `div.word-block` as `createWordBlock` sets it up before it is attached. -/
def newElement (eid : Nat) (text : String) (x y : ℚ) (isPalette : Bool) : Element :=
  { eid := eid, textContent := text, left := x, top := y, transform := none,
    opacity := none, dragging := false, inSentence := false, physicsClass := false,
    newWord := !isPalette, bodyId := none, attached := true }

/-- The function `createWordBlock`; the second component is the returned element. -/
def createWordBlock (text : String) (x y : ℚ) (isPalette : Bool) (s : State) :
    State × Nat :=
  let wordElement := newElement s.nextElemId text x y isPalette
  if isPalette then
    ({ s with palette := s.palette ++ [wordElement], nextElemId := s.nextElemId + 1 },
      wordElement.eid)
  else
    let body := Bodies.rectangle s.nextBodyId (x + 40) (y + 40)
    let wordElement := { wordElement with bodyId := some body.id }
    let body := if !s.physicsEnabled then body.setStatic true else body
    ({ s with
        wordBlocks := s.wordBlocks ++ [{ element := wordElement, body := body, text := text }]
        world := s.world ++ [body.id]
        nextBodyId := s.nextBodyId + 1
        nextElemId := s.nextElemId + 1 },
      wordElement.eid)

/-! ## Drag and drop -/

/-- The overlap test both `drag` and `endDrag` compute. -/
def isOverTrash (wordRect trashRect : Rect) : Bool :=
  decide (wordRect.left < trashRect.right) && decide (wordRect.right > trashRect.left) &&
    decide (wordRect.top < trashRect.bottom) && decide (wordRect.bottom > trashRect.top)

/-- The handler `startDrag`.  The target of a pointer event is an element of the
document, that is a palette entry or the element of a registry tile. -/
def startDrag (env : Env) (e : MouseEvent) (s : State) : State :=
  match e.target with
  | none => s
  | some t =>
    match findInDocument s t with
    | none => s
    | some target =>
      let rect := env.rect target
      let s1 := { s with
        isDragging := true
        draggedElement := some t
        offset := ⟨e.clientX - rect.left, e.clientY - rect.top⟩ }
      let s2 := modifyElement s1 t (fun el => { el with dragging := true })
      let s3 :=
        if s.palette.any (fun el => el.eid == t) then
          let r := createWordBlock target.textContent (e.clientX - 40) (e.clientY - 40) false s2
          { r.1 with draggedElement := some r.2 }
        else s2
      match s3.draggedElement.bind (findElement s3) with
      | none => s3
      | some dragged =>
        match dragged.bodyId with
        | none => s3
        | some bodyId =>
          modifyBody s3 bodyId (fun b =>
            ((b.setStatic true).setVelocity ⟨0, 0⟩).setAngularVelocity 0)

/-- The handler `drag`. -/
def drag (env : Env) (e : MouseEvent) (s : State) : State :=
  if !s.isDragging then s else
  match s.draggedElement with
  | none => s
  | some d =>
    match findElement s d with
    | none => s
    | some dragged =>
      let x := e.clientX - s.offset.x
      let y := e.clientY - s.offset.y
      let s1 := modifyElement s d (fun el => { el with left := x, top := y })
      let s2 :=
        match dragged.bodyId with
        | none => s1
        | some bodyId => modifyBody s1 bodyId (fun b => b.setPosition ⟨x + 40, y + 40⟩)
      let wordRect := env.rect { dragged with left := x, top := y }
      let over := isOverTrash wordRect env.trashRect
      let s3 := modifyElement s2 d
        (fun el => { el with opacity := some (if over then 1 / 2 else 1) })
      updateSentence env { s3 with trashDragOver := over }

/-- The handler `endDrag`; `random` is the value `Math.random()` returns. -/
def endDrag (env : Env) (random : ℚ) (s : State) : State :=
  if !s.isDragging then s else
  match s.draggedElement with
  | none => s
  | some d =>
    match findElement s d with
    | none => s
    | some dragged0 =>
      let s1 := modifyElement { s with isDragging := false } d
        (fun el => { el with dragging := false })
      let dragged := { dragged0 with dragging := false }
      if isOverTrash (env.rect dragged) env.trashRect then
        let s2 :=
          match dragged.bodyId with
          | none => s1
          | some bodyId =>
            match s1.wordBlocks.findIdx? (fun wb => wb.body.id == bodyId) with
            | none => s1
            | some wordBlockIndex =>
              match s1.wordBlocks.get? wordBlockIndex with
              | none => s1
              | some wordBlock =>
                { s1 with
                  world := s1.world.erase wordBlock.body.id
                  wordBlocks := s1.wordBlocks.eraseIdx wordBlockIndex
                  detached := s1.detached ++ [wordBlock.element] }
        let s3 := modifyElement s2 d (fun el => { el with attached := false })
        updateSentence env { s3 with trashDragOver := true, draggedElement := none }
      else
        let s2 := modifyElement { s1 with trashDragOver := false } d
          (fun el => { el with opacity := some 1 })
        let s3 :=
          match dragged.bodyId with
          | none => s2
          | some bodyId =>
            modifyBody s2 bodyId (fun b =>
              let b := b.setPosition ⟨parseInt dragged.left + 40, parseInt dragged.top + 40⟩
              if s.physicsEnabled then
                (b.setStatic false).setVelocity ⟨(random - 1 / 2) * 2, 0⟩
              else b.setStatic true)
        updateSentence env { s3 with draggedElement := none }

/-! ## Controls and the animation loop -/

/-- The function `resetPlayground`. -/
def resetPlayground (env : Env) (s : State) : State :=
  updateSentence env
    { s with
      world := s.wordBlocks.foldl (fun w wb => w.erase wb.body.id) s.world
      detached := s.detached ++
        s.wordBlocks.map (fun wb => { wb.element with attached := false })
      wordBlocks := []
      sentenceWords := [] }

/-- The function `toggleGravity`. -/
def toggleGravity (s : State) : State :=
  let physicsEnabled := !s.physicsEnabled
  if physicsEnabled then
    { s with
      physicsEnabled := physicsEnabled
      gravityY := 1
      wordBlocks := s.wordBlocks.map (fun wb =>
        if !wb.element.dragging then
          { wb with
            body := wb.body.setStatic false
            element := { wb.element with physicsClass := true } }
        else wb) }
  else
    { s with
      physicsEnabled := physicsEnabled
      gravityY := 0
      wordBlocks := s.wordBlocks.map (fun wb =>
        { wb with
          body := ((wb.body.setStatic true).setVelocity ⟨0, 0⟩).setAngularVelocity 0
          element := { wb.element with physicsClass := false } }) }

/-- The step `Engine.update(engine)`: the engine moves the bodies of the world that are
not static as it pleases; it changes neither the identity nor the static flag of a
body and leaves static bodies alone. -/
def engineUpdate (engine : Body → Body) (s : State) : State :=
  { s with
    wordBlocks := s.wordBlocks.map (fun wb =>
      if wb.body.isStatic || !s.world.contains wb.body.id then wb
      else { wb with body := { engine wb.body with id := wb.body.id, isStatic := false } }) }

/-- The copy from the body to the element that `animate` performs. -/
def WordBlock.sync (wb : WordBlock) : WordBlock :=
  { wb with
    element := { wb.element with
      left := wb.body.position.x - 40
      top := wb.body.position.y - 40
      transform := some wb.body.angle } }

/-- One run of `animate`. -/
def animate (env : Env) (engine : Body → Body) (s : State) : State :=
  let s1 := engineUpdate engine s
  if s1.physicsEnabled then
    updateSentence env { s1 with wordBlocks := s1.wordBlocks.map WordBlock.sync }
  else s1

/-- The vocabulary `chineseWords`. -/
def chineseWords : List String :=
  ["我", "你", "他", "她", "它",
   "愛", "看", "聽", "吃", "可",
   "吃", "喝", "以", "說", "走", "跑",
   "大", "小", "好", "壞", "美",
   "書", "水", "火", "山", "數",
   "天", "地", "人", "家"]

/-- The function `addRandomWord`; `word` is the vocabulary entry drawn and `x`, `y` the
position drawn. -/
def addRandomWord (word : String) (x y : ℚ) (s : State) : State :=
  (createWordBlock word x y false s).1

/-- The state after the declarations at the top of the script and `setupPhysics`. -/
def emptyState : State :=
  { physicsEnabled := false, gravityY := 0, wordBlocks := [], world := [], palette := [],
    detached := [], sentenceWords := [], sentenceDisplay := "", trashDragOver := false,
    draggedElement := none, offset := ⟨0, 0⟩, isDragging := false, nextBodyId := 1,
    nextElemId := 1 }

/-- The loop of `createInitialWords` from index `index` on. -/
def createInitialWordsFrom : Nat → List String → State → State
  | _, [], s => s
  | index, word :: rest, s =>
    createInitialWordsFrom (index + 1) rest
      (createWordBlock word (20 + ((index % 2 : Nat) : ℚ) * 90)
        (50 + ((index / 2 : Nat) : ℚ) * 90) true s).1

/-- The state `init` leaves behind. -/
def init : State := createInitialWordsFrom 0 chineseWords emptyState

/-! ## Handlers as actions -/

/-- The outcome of the overlap test `endDrag` performs on the dragged element (after it
has removed the class `dragging`). -/
def droppedOnTrash (env : Env) (s : State) : Bool :=
  match s.draggedElement.bind (findElement s) with
  | some el => isOverTrash (env.rect { el with dragging := false }) env.trashRect
  | none => false

/-- A drag session is live when `endDrag` and `drag` do not return at their guard. -/
def sessionLive (s : State) : Bool := s.isDragging && s.draggedElement.isSome

/-- The calls the browser and the controls make. -/
inductive Action where
  | startDrag (env : Env) (e : MouseEvent)
  | drag (env : Env) (e : MouseEvent)
  | endDrag (env : Env) (random : ℚ)
  | toggleGravity
  | createWordBlock (text : String) (x y : ℚ)
  | resetPlayground (env : Env)
  | animate (env : Env) (engine : Body → Body)

/-- Perform one call. -/
def step (s : State) : Action → State
  | .startDrag env e => startDrag env e s
  | .drag env e => drag env e s
  | .endDrag env random => endDrag env random s
  | .toggleGravity => toggleGravity s
  | .createWordBlock text x y => (createWordBlock text x y false s).1
  | .resetPlayground env => resetPlayground env s
  | .animate env engine => animate env engine s

/-- Perform a sequence of calls, the first of the list first. -/
def run (actions : List Action) (s : State) : State := actions.foldl step s

/-- The calls that may come between the start and the end of one drag without starting
another drag and without creating or clearing tiles. -/
def Action.duringDrag : Action → Bool
  | .drag _ _ => true
  | .toggleGravity => true
  | .animate _ _ => true
  | _ => false

/-- The calls as the script makes them: outside a drag a tile is created by
`addRandomWord` only, with a word drawn from `chineseWords`. -/
def Action.scripted : Action → Bool
  | .createWordBlock text _ _ => chineseWords.contains text
  | _ => true

/-- Every tile of the registry, by its `text` and by the text of its element, and every
palette entry shows a word of the vocabulary. -/
def Vocabulary (s : State) : Prop :=
  (∀ wb ∈ s.wordBlocks, wb.text ∈ chineseWords ∧ wb.element.textContent ∈ chineseWords) ∧
    ∀ el ∈ s.palette, el.textContent ∈ chineseWords

instance (s : State) : Decidable (Vocabulary s) := by
  unfold Vocabulary
  infer_instance

/-! ## Identities and links -/

/-- The identity of the element of a registry entry, its attribute `data-body-id` and
the identity of its body. -/
def WordBlock.link (wb : WordBlock) : Nat × Option Nat × Nat :=
  (wb.element.eid, wb.element.bodyId, wb.body.id)

/-- Every identity of an element the state holds: registry, palette, detached. -/
def allEids (s : State) : List Nat :=
  s.wordBlocks.map (fun wb => wb.element.eid) ++ s.palette.map (fun el => el.eid) ++
    s.detached.map (fun el => el.eid)

/-- The representation invariant: identities are unique and below the counters, the
attribute `data-body-id` of the element of a tile names the body of that tile, the
bodies in the world are those of the registry, no detached element names a body of the
registry, and the dragged element is a tile or a detached element. -/
def WF (s : State) : Prop :=
  (s.wordBlocks.map (fun wb => wb.body.id)).Nodup ∧
    (allEids s).Nodup ∧
    (∀ wb ∈ s.wordBlocks, wb.element.bodyId = some wb.body.id) ∧
    (∀ wb ∈ s.wordBlocks, wb.body.id < s.nextBodyId) ∧
    (∀ eid ∈ allEids s, eid < s.nextElemId) ∧
    s.world = s.wordBlocks.map (fun wb => wb.body.id) ∧
    (∀ el ∈ s.detached, ∀ b ∈ el.bodyId, b < s.nextBodyId) ∧
    (∀ el ∈ s.detached, ∀ wb ∈ s.wordBlocks, el.bodyId ≠ some wb.body.id) ∧
    (∀ d ∈ s.draggedElement,
      d ∈ s.wordBlocks.map (fun wb => wb.element.eid) ∨
        d ∈ s.detached.map (fun el => el.eid))

instance (s : State) : Decidable (WF s) := by
  unfold WF
  infer_instance

/-- The tile behind a registry entry: the identity of its element, its body and its
text. -/
def WordBlock.core (wb : WordBlock) : Nat × Body × String :=
  (wb.element.eid, wb.body, wb.text)

/-- Two states hold the same tiles, elements and bodies as far as identities and links
go, and the same drag session. -/
def SameFrame (s t : State) : Prop :=
  t.wordBlocks.map WordBlock.link = s.wordBlocks.map WordBlock.link ∧
    t.palette.map (fun el => el.eid) = s.palette.map (fun el => el.eid) ∧
    t.detached.map (fun el => (el.eid, el.bodyId)) =
      s.detached.map (fun el => (el.eid, el.bodyId)) ∧
    t.world = s.world ∧ t.nextBodyId = s.nextBodyId ∧ t.nextElemId = s.nextElemId ∧
    t.draggedElement = s.draggedElement ∧ t.isDragging = s.isDragging

/-- A write to an element that leaves its identity and its `data-body-id` alone. -/
def KeepsIds (f : Element → Element) : Prop :=
  ∀ el, (f el).eid = el.eid ∧ (f el).bodyId = el.bodyId

/-- The registry entry `createWordBlock(text, x, y, false)` pushes in state `s`. -/
def newTile (s : State) (text : String) (x y : ℚ) : WordBlock :=
  { element := { newElement s.nextElemId text x y false with bodyId := some s.nextBodyId }
    body := { Bodies.rectangle s.nextBodyId (x + 40) (y + 40) with
      isStatic := !s.physicsEnabled }
    text := text }

/-- What `startDrag` does to the body of the tile it grabs. -/
def Body.grab (b : Body) : Body :=
  ((b.setStatic true).setVelocity ⟨0, 0⟩).setAngularVelocity 0

/-- What `endDrag` does to the body of the tile it releases outside the trash: `el` is
the dragged element, `physicsEnabled` the flag and `random` the value of
`Math.random()`. -/
def Body.release (physicsEnabled : Bool) (random : ℚ) (el : Element) (b : Body) : Body :=
  let b := b.setPosition ⟨parseInt el.left + 40, parseInt el.top + 40⟩
  if physicsEnabled then (b.setStatic false).setVelocity ⟨(random - 1 / 2) * 2, 0⟩
  else b.setStatic true

/-! ## Concrete environments and states used to exercise the handlers -/

instance before_isTotal (env : Env) (pe : Bool) : IsTotal WordBlock (before env pe) :=
  ⟨fun a b => le_total (horizontal env pe a) (horizontal env pe b)⟩

instance before_isTrans (env : Env) (pe : Bool) : IsTrans WordBlock (before env pe) :=
  ⟨fun _ _ _ hab hbc => le_trans hab hbc⟩

/-- A layout in which the playground sits at the origin of the viewport and a word
block is an untransformed 80 by 80 box. -/
def plainLayout (el : Element) : Rect :=
  ⟨el.left, el.top, el.left + 80, el.top + 80⟩

/-- A window 1000 pixels high with the trash can in its top right corner. -/
def plainEnv : Env :=
  { innerHeight := 1000, rect := plainLayout, trashRect := ⟨900, 0, 1000, 100⟩ }

/-- Three tiles added at x = 10, 5, 8 on the line y = 900 while gravity is off. -/
def threeTiles : State :=
  addRandomWord "他" 8 900 (addRandomWord "你" 5 900 (addRandomWord "我" 10 900 emptyState))

/-- A registry holding one tile whose top edge is 80 above the bottom of the window. -/
def lowTile : State := addRandomWord "我" 100 920 emptyState

/-- A registry holding one tile whose top edge is 150 above the bottom of the window. -/
def midTile : State := addRandomWord "我" 100 850 emptyState

/-- A run of `animate` calls, each with the environment and the engine step of its
frame. -/
def runTicks (ticks : List (Env × (Body → Body))) (s : State) : State :=
  ticks.foldl (fun st t => animate t.1 t.2 st) s

/-- An engine step under which every free body falls by 3 and turns by 1 / 10. -/
def fallingEngine (b : Body) : Body :=
  { b with
    position := ⟨b.position.x, b.position.y + 3⟩
    velocity := ⟨0, 3⟩
    angularVelocity := 1 / 10
    angle := b.angle + 1 / 10 }

/-- One tile added at (100, 200) while gravity is off, grabbed at (110, 210), and
gravity switched on while the button is still down. -/
def grabbedThenGravity : State :=
  toggleGravity
    (startDrag plainEnv ⟨some 1, 110, 210⟩ (addRandomWord "我" 100 200 emptyState))

/-- One palette entry at (20, 50). -/
def onePalette : State := (createWordBlock "我" 20 50 true emptyState).1

/-- A tile added at (300, 300), gravity switched on, one frame of falling. -/
def fallingTile : State :=
  animate plainEnv fallingEngine (toggleGravity (addRandomWord "你" 300 300 onePalette))

/-- The palette entry grabbed at (30, 60) while the tile of `fallingTile` falls: a drag
session is live on the copy. -/
def draggingCopy : State := startDrag plainEnv ⟨some 1, 30, 60⟩ fallingTile

/-- After `init`, a tile is added at (100, 200) and grabbed at (110, 210): a drag session
is live on that tile (element 31, body 1). -/
def grabbedTile : State :=
  run [.createWordBlock "我" 100 200, .startDrag plainEnv ⟨some 31, 110, 210⟩] init

/-- After `init`, the first palette entry (element 1) is grabbed at (30, 60): a drag
session is live on its copy (element 31, body 1). -/
def grabbedPalette : State := run [.startDrag plainEnv ⟨some 1, 30, 60⟩] init

/-- After `init`, a tile is added and grabbed, and a second tile is added and grabbed
without an `endDrag` in between. -/
def grabbedTwice : State :=
  run [.createWordBlock "我" 100 200, .createWordBlock "你" 300 200,
    .startDrag plainEnv ⟨some 31, 110, 210⟩, .startDrag plainEnv ⟨some 32, 310, 210⟩] init

/-- The tile of `grabbedTile` moved until it overlaps the trash can. -/
def overTrash : State := drag plainEnv ⟨none, 950, 50⟩ grabbedTile

/-- After `init`, a tile is added at (100.5, 200), grabbed at (110, 210) and moved with
the pointer to (300, 400): the position `drag` computes is (290.5, 390). -/
def fractionalDrag : State :=
  run [.createWordBlock "我" (201 / 2) 200, .startDrag plainEnv ⟨some 31, 110, 210⟩,
    .drag plainEnv ⟨none, 300, 400⟩] init

/-- The same tile moved with the pointer to (0, 400): the position `drag` computes is
(-9.5, 390). -/
def negativeDrag : State :=
  run [.createWordBlock "我" (201 / 2) 200, .startDrag plainEnv ⟨some 31, 110, 210⟩,
    .drag plainEnv ⟨none, 0, 400⟩] init

/-! # Theorems -/

/-! ## The derived sequence -/

theorem wordsInSentence_perm (env : Env) (pe : Bool) (wbs : List WordBlock) :
    (wordsInSentence env pe wbs).Perm (wbs.filter (inBand env pe)) :=
  List.perm_insertionSort _ _

theorem wordsInSentence_sorted (env : Env) (pe : Bool) (wbs : List WordBlock) :
    (wordsInSentence env pe wbs).Sorted (before env pe) :=
  List.sorted_insertionSort _ _

/-- Stability: the tiles at one horizontal position keep their registry order. -/
theorem wordsInSentence_stable (env : Env) (pe : Bool) (wbs : List WordBlock) (v : ℚ) :
    (wordsInSentence env pe wbs).filter (fun wb => decide (horizontal env pe wb = v)) =
      (wbs.filter (inBand env pe)).filter (fun wb => decide (horizontal env pe wb = v)) := by
  set p : WordBlock → Bool := fun wb => decide (horizontal env pe wb = v) with hp
  set members := wbs.filter (inBand env pe) with hm
  have hpair : (members.filter p).Pairwise (before env pe) := by
    rw [List.pairwise_iff_forall_sublist]
    intro a b hab
    have ha : a ∈ members.filter p := hab.subset (by simp)
    have hb : b ∈ members.filter p := hab.subset (by simp)
    simp only [List.mem_filter, hp, decide_eq_true_eq] at ha hb
    simp [before, ha.2, hb.2]
  have hsub : List.Sublist (members.filter p) (wordsInSentence env pe wbs) :=
    List.sublist_insertionSort hpair (List.filter_sublist _)
  have hsub2 : List.Sublist (members.filter p) ((wordsInSentence env pe wbs).filter p) := by
    have := hsub.filter p
    simpa using this
  have hlen : ((wordsInSentence env pe wbs).filter p).length = (members.filter p).length :=
    ((wordsInSentence_perm env pe wbs).filter p).length_eq
  exact (hsub2.eq_of_length hlen.symm).symm

/-- Three members at 10, 5 and 8 come out in the order 5, 8, 10 from every arrangement
of the registry. -/
theorem wordsInSentence_three (env : Env) (pe : Bool) (a b c : WordBlock)
    (ha : horizontal env pe a = 10) (hb : horizontal env pe b = 5)
    (hc : horizontal env pe c = 8) (ia : inBand env pe a = true)
    (ib : inBand env pe b = true) (ic : inBand env pe c = true)
    (l : List WordBlock) (hl : l.Perm [a, b, c]) :
    wordsInSentence env pe l = [b, c, a] := by
  have h := (List.mem_permutations' (s := l) (t := [a, b, c])).2 hl
  simp [List.permutations', List.permutations'Aux] at h
  rcases h with h | h | h | h | h | h <;> subst h <;>
    simp [wordsInSentence, ia, ib, ic, List.insertionSort, List.orderedInsert, before,
      ha, hb, hc] <;> norm_num

theorem updateSentence_sentenceWords (env : Env) (s : State) :
    (updateSentence env s).sentenceWords =
      (wordsInSentence env s.physicsEnabled s.wordBlocks).map
        (fun wb => wb.setInSentence true) := rfl

theorem updateSentence_sentenceDisplay (env : Env) (s : State) :
    (updateSentence env s).sentenceDisplay =
      sentenceText (wordsInSentence env s.physicsEnabled s.wordBlocks) := rfl

/-- C1: the sequence `updateSentence` derives (stored in `sentenceWords`, with the class
`in-sentence` set) is a rearrangement of exactly the registry tiles that pass the band
test of the current mode, ascending in the horizontal position of that mode (body x with
the flag on, the left edge of the bounding rectangle with it off), and the tiles at one
horizontal position stay in registry order; three members at 10, 5, 8 come out as the
tiles at 5, 8, 10 whatever the order of the registry, and their texts are what is shown. -/
theorem updateSentence_sorted_members (env : Env) (s : State) :
    (updateSentence env s).sentenceWords =
        (wordsInSentence env s.physicsEnabled s.wordBlocks).map
          (fun wb => wb.setInSentence true) ∧
      (wordsInSentence env s.physicsEnabled s.wordBlocks).Perm
        (s.wordBlocks.filter (inBand env s.physicsEnabled)) ∧
      (wordsInSentence env s.physicsEnabled s.wordBlocks).Sorted
        (fun a b => horizontal env s.physicsEnabled a ≤ horizontal env s.physicsEnabled b) ∧
      (∀ v : ℚ,
        (wordsInSentence env s.physicsEnabled s.wordBlocks).filter
            (fun wb => decide (horizontal env s.physicsEnabled wb = v)) =
          (s.wordBlocks.filter (inBand env s.physicsEnabled)).filter
            (fun wb => decide (horizontal env s.physicsEnabled wb = v))) ∧
      (∀ a b c : WordBlock,
        horizontal env s.physicsEnabled a = 10 → horizontal env s.physicsEnabled b = 5 →
        horizontal env s.physicsEnabled c = 8 → inBand env s.physicsEnabled a = true →
        inBand env s.physicsEnabled b = true → inBand env s.physicsEnabled c = true →
        s.wordBlocks.Perm [a, b, c] →
          (updateSentence env s).sentenceWords.map (fun wb => wb.text) =
              [b.text, c.text, a.text] ∧
            (b.text ++ c.text ++ a.text ≠ "" →
              (updateSentence env s).sentenceDisplay = b.text ++ c.text ++ a.text)) := by
  refine ⟨rfl, wordsInSentence_perm _ _ _, wordsInSentence_sorted _ _ _,
    wordsInSentence_stable _ _ _, ?_⟩
  intro a b c ha hb hc ia ib ic hl
  have h := wordsInSentence_three env s.physicsEnabled a b c ha hb hc ia ib ic _ hl
  refine ⟨?_, ?_⟩
  · simp [updateSentence_sentenceWords, h, WordBlock.setInSentence]
  · intro hne
    have hj : String.join [b.text, c.text, a.text] = b.text ++ c.text ++ a.text := by
      simp [String.join]
    simp only [updateSentence_sentenceDisplay, h, sentenceText, List.map, hj]
    rw [if_neg hne]

/-- The registry of `threeTiles`, created in the order 10, 5, 8, is shown as the texts
of the tiles at 5, 8, 10. -/
theorem updateSentence_sorted_members_witness :
    (updateSentence plainEnv threeTiles).sentenceWords.map (fun wb => wb.text) =
        ["你", "他", "我"] ∧
      (updateSentence plainEnv threeTiles).sentenceDisplay = "你他我" := by
  have h := (updateSentence_sorted_members plainEnv threeTiles).2.2.2.2
    (threeTiles.wordBlocks.get ⟨0, by decide⟩) (threeTiles.wordBlocks.get ⟨1, by decide⟩)
    (threeTiles.wordBlocks.get ⟨2, by decide⟩)
    (by decide!) (by decide!) (by decide!) (by decide!) (by decide!) (by decide!)
    (by decide!)
  exact ⟨h.1, h.2 (by decide)⟩

/-! ## The text shown -/

theorem foldl_append_length (l : List String) (acc : String) :
    (l.foldl (fun r t => r ++ t) acc).length = acc.length + (l.map String.length).sum := by
  induction l generalizing acc with
  | nil => simp
  | cons a l ih => simp [ih, String.length_append, Nat.add_assoc]

theorem join_ne_empty (l : List String) (t : String) (ht : t ∈ l) (hne : t ≠ "") :
    String.join l ≠ "" := by
  intro h
  have hlen : (String.join l).length = 0 := by rw [h]; rfl
  rw [String.join, foldl_append_length] at hlen
  have hsum : (l.map String.length).sum = 0 := by omega
  have hz : t.length = 0 := by
    have := List.sum_eq_zero_iff.1 hsum t.length (List.mem_map.2 ⟨t, ht, rfl⟩)
    exact this
  apply hne
  cases t with
  | mk d =>
    have : d = [] := List.length_eq_zero.1 hz
    subst this
    rfl

theorem placeholder_ne_empty : placeholder ≠ "" := by decide

/-- The expression `sentence || placeholder` on any registry: the text shown is the
concatenation, in sentence order and without separator, of the texts of the member
tiles when that concatenation is not empty, and the fixed non-empty placeholder when it
is empty; so it is the placeholder when no tile passes the band test, and the
concatenation as soon as one member has a non-empty text. -/
theorem updateSentence_display (env : Env) (s : State) :
    placeholder ≠ "" ∧
      (s.wordBlocks.filter (inBand env s.physicsEnabled) = [] →
        (updateSentence env s).sentenceDisplay = placeholder) ∧
      (String.join ((wordsInSentence env s.physicsEnabled s.wordBlocks).map
          (fun wb => wb.text)) = "" →
        (updateSentence env s).sentenceDisplay = placeholder) ∧
      (String.join ((wordsInSentence env s.physicsEnabled s.wordBlocks).map
          (fun wb => wb.text)) ≠ "" →
        (updateSentence env s).sentenceDisplay =
          String.join ((wordsInSentence env s.physicsEnabled s.wordBlocks).map
            (fun wb => wb.text))) ∧
      ((∃ wb ∈ s.wordBlocks, inBand env s.physicsEnabled wb = true ∧ wb.text ≠ "") →
        (updateSentence env s).sentenceDisplay =
          String.join ((wordsInSentence env s.physicsEnabled s.wordBlocks).map
            (fun wb => wb.text))) := by
  have hempty : ∀ h : String.join ((wordsInSentence env s.physicsEnabled s.wordBlocks).map
      (fun wb => wb.text)) = "", (updateSentence env s).sentenceDisplay = placeholder := by
    intro h
    simp only [updateSentence_sentenceDisplay, sentenceText]
    rw [if_pos h]
  have hfull : ∀ h : String.join ((wordsInSentence env s.physicsEnabled s.wordBlocks).map
      (fun wb => wb.text)) ≠ "", (updateSentence env s).sentenceDisplay =
        String.join ((wordsInSentence env s.physicsEnabled s.wordBlocks).map
          (fun wb => wb.text)) := by
    intro h
    simp only [updateSentence_sentenceDisplay, sentenceText]
    rw [if_neg h]
  refine ⟨placeholder_ne_empty, ?_, hempty, hfull, ?_⟩
  · intro h
    apply hempty
    simp [wordsInSentence, h, String.join]
  · rintro ⟨wb, hmem, hband, htext⟩
    apply hfull
    apply join_ne_empty _ wb.text _ htext
    apply List.mem_map.2
    refine ⟨wb, ?_, rfl⟩
    apply (wordsInSentence_perm env s.physicsEnabled s.wordBlocks).mem_iff.2
    exact List.mem_filter.2 ⟨hmem, hband⟩

/-- C9: in a registry whose tiles all have a non-empty text, as every tile the script
creates has (`run_texts_nonempty`), and for either value of the simulation flag, the
placeholder is not the empty string and neither is the text `updateSentence` shows; if
no registered tile passes the band test the text shown is the placeholder, and
otherwise it is the concatenation, without separator, of the texts of the member tiles
in sentence order. -/
theorem updateSentence_text (env : Env) (s : State)
    (htext : ∀ wb ∈ s.wordBlocks, wb.text ≠ "") :
    placeholder ≠ "" ∧
      (updateSentence env s).sentenceDisplay ≠ "" ∧
      (s.wordBlocks.filter (inBand env s.physicsEnabled) = [] →
        (updateSentence env s).sentenceDisplay = placeholder) ∧
      (s.wordBlocks.filter (inBand env s.physicsEnabled) ≠ [] →
        (updateSentence env s).sentenceDisplay =
          String.join ((wordsInSentence env s.physicsEnabled s.wordBlocks).map
            (fun wb => wb.text))) := by
  have hd := updateSentence_display env s
  have hmember : s.wordBlocks.filter (inBand env s.physicsEnabled) ≠ [] →
      ∃ wb ∈ s.wordBlocks, inBand env s.physicsEnabled wb = true ∧ wb.text ≠ "" := by
    intro hne
    obtain ⟨wb, hwb⟩ := List.exists_mem_of_ne_nil _ hne
    have hm := List.mem_filter.1 hwb
    exact ⟨wb, hm.1, hm.2, htext wb hm.1⟩
  refine ⟨hd.1, ?_, hd.2.1, fun hne => hd.2.2.2.2 (hmember hne)⟩
  by_cases hnil : s.wordBlocks.filter (inBand env s.physicsEnabled) = []
  · rw [hd.2.1 hnil]
    exact hd.1
  · obtain ⟨wb, hmem, hband, hwt⟩ := hmember hnil
    rw [hd.2.2.2.2 ⟨wb, hmem, hband, hwt⟩]
    apply join_ne_empty _ wb.text _ hwt
    apply List.mem_map.2
    refine ⟨wb, ?_, rfl⟩
    apply (wordsInSentence_perm env s.physicsEnabled s.wordBlocks).mem_iff.2
    exact List.mem_filter.2 ⟨hmem, hband⟩

/-- The three tiles of `threeTiles`, all with a non-empty text and all inside the band,
are shown by their texts in sentence order; the empty registry shows the placeholder. -/
theorem updateSentence_text_witness :
    (∀ wb ∈ threeTiles.wordBlocks, wb.text ≠ "") ∧
      threeTiles.wordBlocks.filter (inBand plainEnv threeTiles.physicsEnabled) ≠ [] ∧
      (updateSentence plainEnv threeTiles).sentenceDisplay = "你他我" ∧
      (updateSentence plainEnv emptyState).sentenceDisplay = placeholder := by
  have h := updateSentence_text plainEnv threeTiles (by decide)
  have h0 := updateSentence_text plainEnv emptyState (by decide)
  refine ⟨by decide, by decide!, ?_, h0.2.2.1 rfl⟩
  rw [h.2.2.2 (by decide!)]
  decide!

/-! ## The two bands -/

/-- C10, as the code has it: for a tile whose body centre is the top left corner of its
bounding rectangle plus (40, 40), the tile is a member with the flag on exactly when
that top edge lies between `innerHeight - 240` and `innerHeight - 100`, and with the flag
off exactly when it lies between `innerHeight - 170` and `innerHeight - 60`; the two modes
agree exactly outside the strips from `innerHeight - 240` up to `innerHeight - 170` and
from `innerHeight - 100` down to `innerHeight - 60`. -/
theorem inBand_offset (env : Env) (wb : WordBlock)
    (h : wb.body.position =
      ⟨(env.rect wb.element).left + 40, (env.rect wb.element).top + 40⟩) :
    (inBand env true wb = true ↔
        env.innerHeight - 240 ≤ (env.rect wb.element).top ∧
          (env.rect wb.element).top ≤ env.innerHeight - 100) ∧
      (inBand env false wb = true ↔
        env.innerHeight - 170 ≤ (env.rect wb.element).top ∧
          (env.rect wb.element).top ≤ env.innerHeight - 60) ∧
      (inBand env true wb = inBand env false wb ↔
        ¬ (env.innerHeight - 240 ≤ (env.rect wb.element).top ∧
            (env.rect wb.element).top < env.innerHeight - 170) ∧
          ¬ (env.innerHeight - 100 < (env.rect wb.element).top ∧
            (env.rect wb.element).top ≤ env.innerHeight - 60)) := by
  have hy : wb.body.position.y = (env.rect wb.element).top + 40 := by rw [h]
  have h1 : inBand env true wb = true ↔
      env.innerHeight - 240 ≤ (env.rect wb.element).top ∧
        (env.rect wb.element).top ≤ env.innerHeight - 100 := by
    simp only [inBand, hy, if_true, Bool.and_eq_true, decide_eq_true_eq, ge_iff_le]
    constructor <;> rintro ⟨a, b⟩ <;> constructor <;> linarith
  have h2 : inBand env false wb = true ↔
      env.innerHeight - 170 ≤ (env.rect wb.element).top ∧
        (env.rect wb.element).top ≤ env.innerHeight - 60 := by
    simp only [inBand, Bool.false_eq_true, if_false, Bool.and_eq_true, decide_eq_true_eq,
      ge_iff_le]
    constructor <;> rintro ⟨a, b⟩ <;> constructor <;> linarith
  refine ⟨h1, h2, ?_⟩
  rw [Bool.eq_iff_iff, h1, h2]
  constructor
  · intro hiff
    constructor
    · rintro ⟨a, b⟩
      by_cases c : (env.rect wb.element).top ≤ env.innerHeight - 100
      · have := (hiff.1 ⟨a, c⟩).1
        linarith
      · linarith
    · rintro ⟨a, b⟩
      have := (hiff.2 ⟨by linarith, b⟩).2
      linarith
  · rintro ⟨n1, n2⟩
    constructor
    · rintro ⟨a, b⟩
      refine ⟨?_, by linarith⟩
      by_contra c
      exact n1 ⟨a, lt_of_not_le c⟩
    · rintro ⟨a, b⟩
      refine ⟨by linarith, ?_⟩
      by_contra c
      exact n2 ⟨lt_of_not_le c, b⟩

/-- The tile of `midTile` is a member in both modes. -/
theorem inBand_offset_witness :
    inBand plainEnv true (midTile.wordBlocks.get ⟨0, by decide⟩) =
      inBand plainEnv false (midTile.wordBlocks.get ⟨0, by decide⟩) :=
  (inBand_offset plainEnv (midTile.wordBlocks.get ⟨0, by decide⟩) (by decide!)).2.2.2
    (by decide!)

/-- C10 as stated fails: the tile of `lowTile` has its body centre at its top left
corner plus (40, 40), is a member with the flag off and is not one with the flag on, and
toggling the flag alone empties the derived sequence. -/
theorem inBand_offset_counterexample :
    (∀ wb ∈ lowTile.wordBlocks,
        wb.body.position =
            ⟨(plainEnv.rect wb.element).left + 40, (plainEnv.rect wb.element).top + 40⟩ ∧
          wb.element.left + 40 = wb.body.position.x ∧
          wb.element.top + 40 = wb.body.position.y ∧
          inBand plainEnv false wb = true ∧ inBand plainEnv true wb = false) ∧
      lowTile.wordBlocks.length = 1 ∧
      lowTile.physicsEnabled = false ∧
      (updateSentence plainEnv lowTile).sentenceWords.length = 1 ∧
      (toggleGravity lowTile).physicsEnabled = true ∧
      (updateSentence plainEnv (toggleGravity lowTile)).sentenceWords.length = 0 := by
  decide!

/-! ## Gravity and the animation loop -/

theorem updateSentence_physicsEnabled (env : Env) (s : State) :
    (updateSentence env s).physicsEnabled = s.physicsEnabled := rfl

theorem animate_physicsEnabled (env : Env) (engine : Body → Body) (s : State) :
    (animate env engine s).physicsEnabled = s.physicsEnabled := by
  unfold animate
  by_cases h : s.physicsEnabled = true <;> simp [engineUpdate, h, updateSentence]

theorem runTicks_physicsEnabled (ticks : List (Env × (Body → Body))) (s : State) :
    (runTicks ticks s).physicsEnabled = s.physicsEnabled := by
  induction ticks generalizing s with
  | nil => rfl
  | cons t ticks ih =>
    simp only [runTicks, List.foldl_cons] at ih ⊢
    rw [ih, animate_physicsEnabled]

theorem updateSentence_eids (env : Env) (s : State) :
    (updateSentence env s).wordBlocks.map (fun wb => wb.element.eid) =
      s.wordBlocks.map (fun wb => wb.element.eid) := by
  simp [updateSentence, WordBlock.setInSentence, Function.comp_def]

theorem animate_eids (env : Env) (engine : Body → Body) (s : State) :
    (animate env engine s).wordBlocks.map (fun wb => wb.element.eid) =
      s.wordBlocks.map (fun wb => wb.element.eid) := by
  have h1 : (engineUpdate engine s).wordBlocks.map (fun wb => wb.element.eid) =
      s.wordBlocks.map (fun wb => wb.element.eid) := by
    simp only [engineUpdate, List.map_map]
    apply List.map_congr_left
    intro wb _
    simp only [Function.comp]
    split <;> rfl
  unfold animate
  by_cases h : (engineUpdate engine s).physicsEnabled = true
  · simp only [h, if_true, updateSentence_eids]
    rw [← h1]
    simp [WordBlock.sync, Function.comp_def]
  · simp only [h]
    exact h1

theorem runTicks_eids (ticks : List (Env × (Body → Body))) (s : State) :
    (runTicks ticks s).wordBlocks.map (fun wb => wb.element.eid) =
      s.wordBlocks.map (fun wb => wb.element.eid) := by
  induction ticks generalizing s with
  | nil => rfl
  | cons t ticks ih =>
    simp only [runTicks, List.foldl_cons] at ih ⊢
    rw [ih, animate_eids]

theorem toggleGravity_eids (s : State) :
    (toggleGravity s).wordBlocks.map (fun wb => wb.element.eid) =
      s.wordBlocks.map (fun wb => wb.element.eid) := by
  unfold toggleGravity
  by_cases h : s.physicsEnabled = true
  · simp [h, Function.comp_def]
  · simp only [Bool.not_eq_true] at h
    simp only [h, Bool.not_false, if_true, List.map_map]
    apply List.map_congr_left
    intro wb _
    simp only [Function.comp]
    split <;> rfl

/-- Switching gravity off calls `setStatic(true)`, `setVelocity((0, 0))` and
`setAngularVelocity(0)` on every registry body; with setters that write the field they
name, every body is then static and at rest. -/
theorem toggleGravity_off (s : State) (h : s.physicsEnabled = true) :
    (toggleGravity s).physicsEnabled = false ∧
      ∀ wb ∈ (toggleGravity s).wordBlocks,
        wb.body.isStatic = true ∧ wb.body.velocity = ⟨0, 0⟩ ∧ wb.body.angularVelocity = 0 := by
  unfold toggleGravity
  simp only [h, Bool.not_true, Bool.false_eq_true, if_false, true_and, List.mem_map]
  rintro wb ⟨w, _, rfl⟩
  simp [Body.setStatic, Body.setVelocity, Body.setAngularVelocity]

/-- What the script contributes to a double toggle, for an engine whose setters write
the field they name and whose numbers are rationals: from a state with the flag off,
switching gravity on, running any number of animation frames (each with its own engine
step and environment) and switching gravity off again leaves the flag off, the same
tiles registered, and the body of every registered tile static with zero linear and
angular velocity.  This says nothing of an engine that saves the mass of a body at every
`setStatic(true)`, as Matter.js 0.19.0 does: there a body the script pins while it is
pinned already comes back from `setStatic(false)` with infinite mass, and the engine
step turns its position and velocity into `NaN`. -/
theorem toggleGravity_twice (s : State) (h : s.physicsEnabled = false)
    (ticks : List (Env × (Body → Body))) :
    (toggleGravity (runTicks ticks (toggleGravity s))).physicsEnabled = false ∧
      (toggleGravity (runTicks ticks (toggleGravity s))).wordBlocks.map
          (fun wb => wb.element.eid) = s.wordBlocks.map (fun wb => wb.element.eid) ∧
      ∀ wb ∈ (toggleGravity (runTicks ticks (toggleGravity s))).wordBlocks,
        wb.body.isStatic = true ∧ wb.body.velocity = ⟨0, 0⟩ ∧ wb.body.angularVelocity = 0 := by
  have hon : (toggleGravity s).physicsEnabled = true := by simp [toggleGravity, h]
  have hmid : (runTicks ticks (toggleGravity s)).physicsEnabled = true := by
    rw [runTicks_physicsEnabled, hon]
  refine ⟨(toggleGravity_off _ hmid).1, ?_, (toggleGravity_off _ hmid).2⟩
  rw [toggleGravity_eids, runTicks_eids, toggleGravity_eids]

/-- Between the two toggles the tile of `lowTile` falls for two frames; afterwards the
flag is off and the body is static and at rest. -/
theorem toggleGravity_twice_witness :
    lowTile.physicsEnabled = false ∧
      (toggleGravity (runTicks [(plainEnv, fallingEngine), (plainEnv, fallingEngine)]
        (toggleGravity lowTile))).physicsEnabled = false ∧
      (∀ wb ∈ (toggleGravity (runTicks [(plainEnv, fallingEngine), (plainEnv, fallingEngine)]
          (toggleGravity lowTile))).wordBlocks,
        wb.body.isStatic = true ∧ wb.body.velocity = ⟨0, 0⟩ ∧ wb.body.angularVelocity = 0) ∧
      (runTicks [(plainEnv, fallingEngine), (plainEnv, fallingEngine)]
        (toggleGravity lowTile)).wordBlocks.map
          (fun wb => (wb.body.isStatic, wb.body.velocity, wb.body.position)) =
        [(false, ⟨0, 3⟩, ⟨140, 966⟩)] :=
  ⟨by decide,
    (toggleGravity_twice lowTile (by decide)
      [(plainEnv, fallingEngine), (plainEnv, fallingEngine)]).1,
    (toggleGravity_twice lowTile (by decide)
      [(plainEnv, fallingEngine), (plainEnv, fallingEngine)]).2.2,
    by decide!⟩

/-- C6 fails on the code where the engine saves the mass of a body at every
`setStatic(true)`: the script pins bodies that are pinned already.  With the flag off
the body of the tile `createWordBlock` pushes is static from its creation, so the
`setStatic(true)` of `startDrag` on the copy of a palette entry meets a static body; and
in `grabbedPalette`, where that copy is dragged with the flag off and away from the
trash can, the body is static when `endDrag` calls `setStatic(true)` once more.  What
the engine then makes of the next `setStatic(false)` is outside this development. -/
theorem pinned_again :
    (∀ (s : State) (text : String) (x y : ℚ), s.physicsEnabled = false →
        (newTile s text x y).body.isStatic = true) ∧
      grabbedPalette.physicsEnabled = false ∧
      sessionLive grabbedPalette = true ∧
      droppedOnTrash plainEnv grabbedPalette = false ∧
      ∀ wb ∈ grabbedPalette.wordBlocks, wb.body.isStatic = true := by
  refine ⟨?_, by decide!, by decide!, by decide!, by decide!⟩
  intro s text x y h
  simp [newTile, h]

/-- C7, as the code has it: with the flag on, one run of `animate` writes the position
of the body minus (40, 40) and the angle of the body, as the engine step left them, to
the element of every registered tile, whether it is dragged, static or free; with the
flag off it changes no element of the registry. -/
theorem animate_presentation (env : Env) (engine : Body → Body) (s : State) :
    (s.physicsEnabled = true →
        (animate env engine s).wordBlocks.map
            (fun wb => (wb.element.left, wb.element.top, wb.element.transform)) =
          (engineUpdate engine s).wordBlocks.map
            (fun wb => (wb.body.position.x - 40, wb.body.position.y - 40,
              some wb.body.angle))) ∧
      (s.physicsEnabled = false →
        (animate env engine s).wordBlocks.map (fun wb => wb.element) =
          s.wordBlocks.map (fun wb => wb.element)) := by
  constructor
  · intro h
    have h1 : (engineUpdate engine s).physicsEnabled = true := h
    simp [animate, h1, updateSentence, WordBlock.setInSentence, WordBlock.sync,
      Function.comp_def]
  · intro h
    have h1 : (engineUpdate engine s).physicsEnabled = false := h
    simp only [animate, h1, Bool.false_eq_true, if_false]
    simp only [engineUpdate, List.map_map]
    apply List.map_congr_left
    intro wb _
    simp only [Function.comp]
    split <;> rfl

/-- In `grabbedThenGravity` the flag is on, and the frame writes the element of the tile
that is being dragged. -/
theorem animate_presentation_witness :
    (animate plainEnv fallingEngine grabbedThenGravity).wordBlocks.map
        (fun wb => (wb.element.left, wb.element.top, wb.element.transform)) =
      [(100, 200, some 0)] := by
  rw [(animate_presentation plainEnv fallingEngine grabbedThenGravity).1 (by decide!)]
  decide!

/-- C7 as stated fails: in `grabbedThenGravity` the only tile is the target of the live
drag session, carries the class `dragging` and has a static body, its element has no
transform yet, and one run of `animate` writes a transform to it. -/
theorem animate_presentation_counterexample :
    grabbedThenGravity.physicsEnabled = true ∧
      grabbedThenGravity.isDragging = true ∧
      grabbedThenGravity.draggedElement = some 1 ∧
      grabbedThenGravity.wordBlocks.map
          (fun wb => (wb.element.eid, wb.element.dragging, wb.body.isStatic,
            wb.element.transform)) = [(1, true, true, none)] ∧
      (animate plainEnv fallingEngine grabbedThenGravity).wordBlocks.map
          (fun wb => (wb.element.eid, wb.element.transform)) = [(1, some 0)] := by
  decide!

/-! ## What the invariant depends on -/

/-- The part of the state the invariant `WF` reads, the session apart. -/
theorem WF_congr (s t : State)
    (hl : t.wordBlocks.map WordBlock.link = s.wordBlocks.map WordBlock.link)
    (hp : t.palette.map (fun el => el.eid) = s.palette.map (fun el => el.eid))
    (hd : t.detached.map (fun el => (el.eid, el.bodyId)) =
      s.detached.map (fun el => (el.eid, el.bodyId)))
    (hw : t.world = s.world) (hb : t.nextBodyId = s.nextBodyId)
    (he : t.nextElemId = s.nextElemId)
    (hs : ∀ d ∈ t.draggedElement,
      d ∈ s.wordBlocks.map (fun wb => wb.element.eid) ∨
        d ∈ s.detached.map (fun el => el.eid))
    (h : WF s) : WF t := by
  have hid : t.wordBlocks.map (fun wb => wb.body.id) =
      s.wordBlocks.map (fun wb => wb.body.id) := by
    have := congrArg (List.map (fun p : Nat × Option Nat × Nat => p.2.2)) hl
    simpa [List.map_map, Function.comp_def, WordBlock.link] using this
  have hei : t.wordBlocks.map (fun wb => wb.element.eid) =
      s.wordBlocks.map (fun wb => wb.element.eid) := by
    have := congrArg (List.map (fun p : Nat × Option Nat × Nat => p.1)) hl
    simpa [List.map_map, Function.comp_def, WordBlock.link] using this
  have hde : t.detached.map (fun el => el.eid) = s.detached.map (fun el => el.eid) := by
    have := congrArg (List.map (fun p : Nat × Option Nat => p.1)) hd
    simpa [List.map_map, Function.comp_def] using this
  have hdb : t.detached.map (fun el => el.bodyId) = s.detached.map (fun el => el.bodyId) := by
    have := congrArg (List.map (fun p : Nat × Option Nat => p.2)) hd
    simpa [List.map_map, Function.comp_def] using this
  have hall : allEids t = allEids s := by simp only [allEids, hei, hp, hde]
  have hlink : ∀ wb ∈ t.wordBlocks, wb.link ∈ s.wordBlocks.map WordBlock.link := by
    intro wb hwb
    rw [← hl]
    exact List.mem_map_of_mem _ hwb
  obtain ⟨h1, h2, h3, h4, h5, h6, h7, h8, h9⟩ := h
  refine ⟨by rw [hid]; exact h1, by rw [hall]; exact h2, ?_, ?_, by rw [hall, he]; exact h5,
    by rw [hw, hid]; exact h6, ?_, ?_, ?_⟩
  · intro wb hwb
    obtain ⟨w, hw1, hw2⟩ := List.mem_map.1 (hlink wb hwb)
    have := h3 w hw1
    simp only [WordBlock.link, Prod.mk.injEq] at hw2
    rw [← hw2.2.1, ← hw2.2.2]
    exact this
  · intro wb hwb
    obtain ⟨w, hw1, hw2⟩ := List.mem_map.1 (hlink wb hwb)
    simp only [WordBlock.link, Prod.mk.injEq] at hw2
    rw [hb, ← hw2.2.2]
    exact h4 w hw1
  · intro el hel b hbm
    have : el.bodyId ∈ s.detached.map (fun el => el.bodyId) := by
      rw [← hdb]; exact List.mem_map_of_mem _ hel
    obtain ⟨e0, he0, he1⟩ := List.mem_map.1 this
    rw [hb]
    exact h7 e0 he0 b (by rw [he1]; exact hbm)
  · intro el hel wb hwb
    have : el.bodyId ∈ s.detached.map (fun el => el.bodyId) := by
      rw [← hdb]; exact List.mem_map_of_mem _ hel
    obtain ⟨e0, he0, he1⟩ := List.mem_map.1 this
    obtain ⟨w, hw1, hw2⟩ := List.mem_map.1 (hlink wb hwb)
    simp only [WordBlock.link, Prod.mk.injEq] at hw2
    rw [← he1, ← hw2.2.2]
    exact h8 e0 he0 w hw1
  · intro d hd
    rw [hei, hde]
    exact hs d hd

theorem SameFrame.refl (s : State) : SameFrame s s :=
  ⟨rfl, rfl, rfl, rfl, rfl, rfl, rfl, rfl⟩

theorem SameFrame.trans {s t u : State} (h1 : SameFrame s t) (h2 : SameFrame t u) :
    SameFrame s u := by
  obtain ⟨a1, a2, a3, a4, a5, a6, a7, a8⟩ := h1
  obtain ⟨b1, b2, b3, b4, b5, b6, b7, b8⟩ := h2
  exact ⟨b1.trans a1, b2.trans a2, b3.trans a3, b4.trans a4, b5.trans a5, b6.trans a6,
    b7.trans a7, b8.trans a8⟩

theorem SameFrame.wf {s t : State} (h : SameFrame s t) (hs : WF s) : WF t :=
  WF_congr s t h.1 h.2.1 h.2.2.1 h.2.2.2.1 h.2.2.2.2.1 h.2.2.2.2.2.1
    (fun d hd => hs.2.2.2.2.2.2.2.2 d (by rw [← h.2.2.2.2.2.2.1]; exact hd)) hs

theorem modifyFirst_map {α β : Type} (p : α → Bool) (f : α → α) (g : α → β)
    (hg : ∀ a, g (f a) = g a) (l : List α) : (modifyFirst p f l).map g = l.map g := by
  induction l with
  | nil => rfl
  | cons a l ih =>
    simp only [modifyFirst]
    split
    · simp [hg]
    · simp [ih]

theorem modifyFirst_length {α : Type} (p : α → Bool) (f : α → α) (l : List α) :
    (modifyFirst p f l).length = l.length := by
  have := congrArg List.length (modifyFirst_map p f (fun _ => ()) (fun _ => rfl) l)
  simpa using this

theorem modifyElement_sameFrame (s : State) (d : Nat) (f : Element → Element)
    (hf : KeepsIds f) : SameFrame s (modifyElement s d f) := by
  refine ⟨?_, ?_, ?_, rfl, rfl, rfl, rfl, rfl⟩
  · simp only [modifyElement, List.map_map]
    apply List.map_congr_left
    intro wb _
    simp only [Function.comp]
    split
    · simp [WordBlock.link, (hf wb.element).1, (hf wb.element).2]
    · rfl
  · simp only [modifyElement, List.map_map]
    apply List.map_congr_left
    intro el _
    simp only [Function.comp]
    split
    · exact (hf el).1
    · rfl
  · simp only [modifyElement, List.map_map]
    apply List.map_congr_left
    intro el _
    simp only [Function.comp]
    split
    · simp [(hf el).1, (hf el).2]
    · rfl

theorem modifyBody_sameFrame (s : State) (b : Nat) (f : Body → Body)
    (hf : ∀ x, (f x).id = x.id) : SameFrame s (modifyBody s b f) := by
  refine ⟨?_, rfl, rfl, rfl, rfl, rfl, rfl, rfl⟩
  simp only [modifyBody]
  apply modifyFirst_map
  intro wb
  simp [WordBlock.link, hf]

theorem updateSentence_sameFrame (env : Env) (s : State) :
    SameFrame s (updateSentence env s) := by
  refine ⟨?_, rfl, rfl, rfl, rfl, rfl, rfl, rfl⟩
  simp [updateSentence, WordBlock.setInSentence, WordBlock.link, Function.comp_def]

theorem toggleGravity_sameFrame (s : State) : SameFrame s (toggleGravity s) := by
  unfold toggleGravity
  by_cases h : s.physicsEnabled = true
  · refine ⟨?_, ?_⟩
    · simp [h, WordBlock.link, Function.comp_def, Body.setStatic, Body.setVelocity,
        Body.setAngularVelocity]
    · simp [h]
  · simp only [Bool.not_eq_true] at h
    simp only [h, Bool.not_false, if_true]
    refine ⟨?_, rfl, rfl, rfl, rfl, rfl, rfl, rfl⟩
    simp only [List.map_map]
    apply List.map_congr_left
    intro wb _
    simp only [Function.comp]
    split <;> rfl

theorem engineUpdate_sameFrame (engine : Body → Body) (s : State) :
    SameFrame s (engineUpdate engine s) := by
  refine ⟨?_, rfl, rfl, rfl, rfl, rfl, rfl, rfl⟩
  simp only [engineUpdate, List.map_map]
  apply List.map_congr_left
  intro wb _
  simp only [Function.comp]
  split <;> rfl

theorem animate_sameFrame (env : Env) (engine : Body → Body) (s : State) :
    SameFrame s (animate env engine s) := by
  unfold animate
  by_cases h : (engineUpdate engine s).physicsEnabled = true
  · simp only [h, if_true]
    refine (engineUpdate_sameFrame engine s).trans (SameFrame.trans ?_
      (updateSentence_sameFrame env _))
    refine ⟨?_, rfl, rfl, rfl, rfl, rfl, rfl, rfl⟩
    simp [WordBlock.sync, WordBlock.link, Function.comp_def]
  · simp only [h]
    exact engineUpdate_sameFrame engine s

theorem drag_sameFrame (env : Env) (e : MouseEvent) (s : State) :
    SameFrame s (drag env e s) := by
  unfold drag
  split
  · exact SameFrame.refl s
  · split
    · exact SameFrame.refl s
    · rename_i d _
      split
      · exact SameFrame.refl s
      · rename_i dragged _
        have k1 : KeepsIds (fun el : Element =>
            { el with left := e.clientX - s.offset.x, top := e.clientY - s.offset.y }) :=
          fun _ => ⟨rfl, rfl⟩
        have h1 := modifyElement_sameFrame s d _ k1
        refine SameFrame.trans ?_ (updateSentence_sameFrame env _)
        have h2 : SameFrame s
            (match dragged.bodyId with
              | none => modifyElement s d (fun el =>
                  { el with left := e.clientX - s.offset.x, top := e.clientY - s.offset.y })
              | some bodyId => modifyBody (modifyElement s d (fun el =>
                  { el with left := e.clientX - s.offset.x, top := e.clientY - s.offset.y }))
                  bodyId (fun b => b.setPosition
                    ⟨e.clientX - s.offset.x + 40, e.clientY - s.offset.y + 40⟩)) := by
          split
          · exact h1
          · exact h1.trans (modifyBody_sameFrame _ _ _ (fun _ => rfl))
        have h3 := h2.trans (modifyElement_sameFrame _ d
          (fun el => { el with opacity := some (if isOverTrash (env.rect
            { dragged with left := e.clientX - s.offset.x, top := e.clientY - s.offset.y })
              env.trashRect then 1 / 2 else 1) })
          (fun _ => ⟨rfl, rfl⟩))
        exact h3

/-! ## Creating a tile -/

theorem createWordBlock_tile (text : String) (x y : ℚ) (s : State) :
    createWordBlock text x y false s =
      ({ s with
          wordBlocks := s.wordBlocks ++ [newTile s text x y]
          world := s.world ++ [s.nextBodyId]
          nextBodyId := s.nextBodyId + 1
          nextElemId := s.nextElemId + 1 }, s.nextElemId) := by
  cases h : s.physicsEnabled <;>
    simp [createWordBlock, newTile, h, Bodies.rectangle, Body.setStatic, newElement]

theorem WF_createWordBlock (text : String) (x y : ℚ) (s : State) (h : WF s) :
    WF (createWordBlock text x y false s).1 := by
  rw [createWordBlock_tile]
  obtain ⟨h1, h2, h3, h4, h5, h6, h7, h8, h9⟩ := h
  have hfresh : s.nextElemId ∉ allEids s := fun hm => Nat.lt_irrefl _ (h5 _ hm)
  have hall : List.Perm (allEids { s with
      wordBlocks := s.wordBlocks ++ [newTile s text x y]
      world := s.world ++ [s.nextBodyId]
      nextBodyId := s.nextBodyId + 1
      nextElemId := s.nextElemId + 1 }) (s.nextElemId :: allEids s) := by
    simp only [allEids, List.map_append, List.map_cons, List.map_nil, newTile, newElement]
    rw [List.perm_iff_count]
    intro a
    simp only [List.count_append, List.count_cons, List.count_nil]
    omega
  refine ⟨?_, ?_, ?_, ?_, ?_, ?_, ?_, ?_, ?_⟩
  · simp only [List.map_append, List.map_cons, List.map_nil]
    rw [List.nodup_append]
    refine ⟨h1, by simp, ?_⟩
    intro a ha hb
    obtain ⟨wb, hwb, rfl⟩ := List.mem_map.1 ha
    simp only [List.mem_singleton, newTile, Bodies.rectangle] at hb
    have := h4 wb hwb
    omega
  · rw [hall.nodup_iff]
    exact List.nodup_cons.2 ⟨hfresh, h2⟩
  · intro wb hwb
    rcases List.mem_append.1 hwb with hwb | hwb
    · exact h3 wb hwb
    · simp only [List.mem_singleton] at hwb
      subst hwb
      rfl
  · intro wb hwb
    rcases List.mem_append.1 hwb with hwb | hwb
    · exact Nat.lt_succ_of_lt (h4 wb hwb)
    · simp only [List.mem_singleton] at hwb
      subst hwb
      exact Nat.lt_succ_self _
  · intro eid hmem
    rcases List.mem_cons.1 (hall.mem_iff.1 hmem) with rfl | hmem
    · exact Nat.lt_succ_self _
    · exact Nat.lt_succ_of_lt (h5 _ hmem)
  · simp [h6, newTile, Bodies.rectangle]
  · intro el hel b hb
    exact Nat.lt_succ_of_lt (h7 el hel b hb)
  · intro el hel wb hwb
    rcases List.mem_append.1 hwb with hwb | hwb
    · exact h8 el hel wb hwb
    · simp only [List.mem_singleton] at hwb
      subst hwb
      intro heq
      have := h7 el hel s.nextBodyId (by rw [heq]; rfl)
      exact Nat.lt_irrefl _ this
  · intro d hd
    rcases h9 d hd with h | h
    · left
      simp only [List.map_append, List.mem_append]
      exact Or.inl h
    · exact Or.inr h

/-! ## Looking elements and tiles up -/

theorem find?_of_nodup {α : Type} (key : α → Nat) (l : List α)
    (hnd : (l.map key).Nodup) (a : α) (ha : a ∈ l) :
    l.find? (fun x => key x == key a) = some a := by
  induction l with
  | nil => cases ha
  | cons b l ih =>
    simp only [List.map_cons, List.nodup_cons] at hnd
    rcases List.mem_cons.1 ha with rfl | ha
    · simp
    · have hne : key b ≠ key a := by
        intro heq
        exact hnd.1 (heq ▸ List.mem_map_of_mem key ha)
      simp only [List.find?_cons]
      have : (key b == key a) = false := by simpa using hne
      rw [this]
      exact ih hnd.2 ha

theorem modifyFirst_of_nodup {α : Type} (key : α → Nat) (k : Nat) (f : α → α)
    (l : List α) (hnd : (l.map key).Nodup) :
    modifyFirst (fun x => key x == k) f l = l.map (fun x => if key x = k then f x else x) := by
  induction l with
  | nil => rfl
  | cons b l ih =>
    simp only [List.map_cons, List.nodup_cons] at hnd
    simp only [modifyFirst, List.map_cons]
    by_cases hb : key b = k
    · simp only [hb, beq_self_eq_true, if_true]
      congr 1
      symm
      calc l.map (fun x => if key x = k then f x else x) = l.map id := by
            apply List.map_congr_left
            intro x hx
            have : key x ≠ k := by
              intro heq
              exact hnd.1 (by rw [hb, ← heq]; exact List.mem_map_of_mem key hx)
            simp [this]
        _ = l := List.map_id l
    · have : (key b == k) = false := by simpa using hb
      simp only [this, hb, if_false, Bool.false_eq_true]
      rw [ih hnd.2]

theorem WF.eids_nodup {s : State} (h : WF s) :
    (s.wordBlocks.map (fun wb => wb.element.eid)).Nodup := by
  have := h.2.1
  simp only [allEids, List.append_assoc] at this
  exact (List.nodup_append.1 this).1

theorem findElement_tile (s : State) (h : WF s) (wb : WordBlock) (hwb : wb ∈ s.wordBlocks) :
    findElement s wb.element.eid = some wb.element := by
  unfold findElement
  rw [find?_of_nodup (fun w : WordBlock => w.element.eid) _ h.eids_nodup wb hwb]

theorem findElement_isSome (s : State) (d : Nat) (hd : d ∈ allEids s) :
    ∃ el, findElement s d = some el ∧ el.eid = d := by
  unfold findElement
  cases h1 : s.wordBlocks.find? (fun wb => wb.element.eid == d) with
  | some wb =>
    have := List.find?_some h1
    exact ⟨wb.element, rfl, by simpa using this⟩
  | none =>
    cases h2 : s.palette.find? (fun el => el.eid == d) with
    | some el =>
      have := List.find?_some h2
      exact ⟨el, rfl, by simpa using this⟩
    | none =>
      cases h3 : s.detached.find? (fun el => el.eid == d) with
      | some el =>
        have := List.find?_some h3
        exact ⟨el, rfl, by simpa using this⟩
      | none =>
        exfalso
        simp only [allEids, List.mem_append, List.mem_map] at hd
        simp only [List.find?_eq_none, beq_iff_eq] at h1 h2 h3
        rcases hd with (⟨wb, hw, he⟩ | ⟨el, hw, he⟩) | ⟨el, hw, he⟩
        · exact h1 wb hw he
        · exact h2 el hw he
        · exact h3 el hw he

/-! ## Consequences of the invariant -/

theorem map_ite_of_ne {α : Type} (key : α → Nat) (k : Nat) (f : α → α) (l : List α)
    (h : ∀ x ∈ l, key x ≠ k) : l.map (fun x => if key x = k then f x else x) = l := by
  calc l.map (fun x => if key x = k then f x else x) = l.map id := by
        apply List.map_congr_left
        intro x hx
        simp [h x hx]
    _ = l := List.map_id l

theorem WF.bodyIds_nodup {s : State} (h : WF s) :
    (s.wordBlocks.map (fun wb => wb.body.id)).Nodup := h.1

theorem WF.eid_inj {s : State} (h : WF s) {a b : WordBlock} (ha : a ∈ s.wordBlocks)
    (hb : b ∈ s.wordBlocks) (hab : a.element.eid = b.element.eid) : a = b :=
  List.inj_on_of_nodup_map h.eids_nodup ha hb hab

theorem WF.bodyId_inj {s : State} (h : WF s) {a b : WordBlock} (ha : a ∈ s.wordBlocks)
    (hb : b ∈ s.wordBlocks) (hab : a.body.id = b.body.id) : a = b :=
  List.inj_on_of_nodup_map h.bodyIds_nodup ha hb hab

theorem WF.palette_ne {s : State} (h : WF s) {wb : WordBlock} (hwb : wb ∈ s.wordBlocks)
    {el : Element} (hel : el ∈ s.palette) : el.eid ≠ wb.element.eid := by
  have := h.2.1
  simp only [allEids, List.append_assoc] at this
  have hdis := (List.nodup_append.1 this).2.2
  intro heq
  have hp : wb.element.eid ∈ s.palette.map (fun e : Element => e.eid) := by
    rw [← heq]
    exact List.mem_map_of_mem (fun e : Element => e.eid) hel
  exact hdis (List.mem_map_of_mem (fun w : WordBlock => w.element.eid) hwb)
    (List.mem_append_left _ hp)

theorem WF.detached_ne {s : State} (h : WF s) {wb : WordBlock} (hwb : wb ∈ s.wordBlocks)
    {el : Element} (hel : el ∈ s.detached) : el.eid ≠ wb.element.eid := by
  have := h.2.1
  simp only [allEids, List.append_assoc] at this
  have hdis := (List.nodup_append.1 this).2.2
  intro heq
  have hp : wb.element.eid ∈ s.detached.map (fun e : Element => e.eid) := by
    rw [← heq]
    exact List.mem_map_of_mem (fun e : Element => e.eid) hel
  exact hdis (List.mem_map_of_mem (fun w : WordBlock => w.element.eid) hwb)
    (List.mem_append_right _ hp)

theorem WF.palette_nodup {s : State} (h : WF s) :
    (s.palette.map (fun el => el.eid)).Nodup := by
  have := h.2.1
  simp only [allEids, List.append_assoc] at this
  exact (List.nodup_append.1 (List.nodup_append.1 this).2.1).1

/-- Under the invariant a write to the body found by identity is a write to the tile
with that body. -/
theorem modifyBody_wordBlocks (s : State) (h : WF s) (b : Nat) (f : Body → Body) :
    (modifyBody s b f).wordBlocks =
      s.wordBlocks.map (fun wb => if wb.body.id = b then { wb with body := f wb.body } else wb) :=
  modifyFirst_of_nodup (fun wb : WordBlock => wb.body.id) b _ _ h.bodyIds_nodup

/-! ## Grabbing a tile -/

theorem findInDocument_tile (s : State) (h : WF s) (wb : WordBlock)
    (hwb : wb ∈ s.wordBlocks) (hatt : wb.element.attached = true) :
    findInDocument s wb.element.eid = some wb.element := by
  unfold findInDocument findElement
  simp only
  rw [find?_of_nodup (fun w : WordBlock => w.element.eid) _ h.eids_nodup wb hwb]
  simp [Option.filter, hatt]

theorem palette_any_false (s : State) (h : WF s) (wb : WordBlock) (hwb : wb ∈ s.wordBlocks) :
    s.palette.any (fun el => el.eid == wb.element.eid) = false := by
  rw [List.any_eq_false]
  intro el hel
  simpa using h.palette_ne hwb hel

theorem startDrag_tile_eq (env : Env) (e : MouseEvent) (s : State) (h : WF s)
    (wb0 : WordBlock) (hwb : wb0 ∈ s.wordBlocks) (he : e.target = some wb0.element.eid)
    (hatt : wb0.element.attached = true) :
    startDrag env e s =
      modifyBody
        (modifyElement
          { s with
            isDragging := true
            draggedElement := some wb0.element.eid
            offset := ⟨e.clientX - (env.rect wb0.element).left,
              e.clientY - (env.rect wb0.element).top⟩ }
          wb0.element.eid (fun el => { el with dragging := true }))
        wb0.body.id Body.grab := by
  have hs1 : WF { s with
      isDragging := true
      draggedElement := some wb0.element.eid
      offset := ⟨e.clientX - (env.rect wb0.element).left,
        e.clientY - (env.rect wb0.element).top⟩ } :=
    WF_congr s _ rfl rfl rfl rfl rfl rfl
      (fun d hd => by
        cases hd
        exact Or.inl (List.mem_map_of_mem (fun w : WordBlock => w.element.eid) hwb)) h
  have hs2 := (modifyElement_sameFrame _ wb0.element.eid
    (fun el => { el with dragging := true }) (fun _ => ⟨rfl, rfl⟩)).wf hs1
  have hmem : ({ wb0 with element := { wb0.element with dragging := true } } : WordBlock) ∈
      (modifyElement { s with
        isDragging := true
        draggedElement := some wb0.element.eid
        offset := ⟨e.clientX - (env.rect wb0.element).left,
          e.clientY - (env.rect wb0.element).top⟩ }
        wb0.element.eid (fun el => { el with dragging := true })).wordBlocks := by
    simp only [modifyElement, List.mem_map]
    exact ⟨wb0, hwb, by simp⟩
  have hfind := findElement_tile _ hs2 _ hmem
  simp only at hfind
  unfold startDrag
  simp only [he, findInDocument_tile s h wb0 hwb hatt, palette_any_false s h wb0 hwb,
    Bool.false_eq_true, if_false]
  have hd : (modifyElement { s with
        isDragging := true
        draggedElement := some wb0.element.eid
        offset := ⟨e.clientX - (env.rect wb0.element).left,
          e.clientY - (env.rect wb0.element).top⟩ }
        wb0.element.eid (fun el => { el with dragging := true })).draggedElement =
      some wb0.element.eid := rfl
  rw [hd]
  simp only [Option.bind, hfind, h.2.2.1 wb0 hwb]
  rfl

/-! ## Grabbing a palette entry -/

theorem findInDocument_palette (s : State) (h : WF s) (pal : Element)
    (hpal : pal ∈ s.palette) (hatt : pal.attached = true) :
    findInDocument s pal.eid = some pal := by
  have hnone : s.wordBlocks.find? (fun wb => wb.element.eid == pal.eid) = none := by
    rw [List.find?_eq_none]
    intro wb hwb
    simpa using fun heq => h.palette_ne hwb hpal heq.symm
  unfold findInDocument findElement
  simp only [hnone]
  rw [find?_of_nodup (fun el : Element => el.eid) _ h.palette_nodup pal hpal]
  simp [Option.filter, hatt]

theorem palette_any_true (s : State) (pal : Element) (hpal : pal ∈ s.palette) :
    s.palette.any (fun el => el.eid == pal.eid) = true := by
  rw [List.any_eq_true]
  exact ⟨pal, hpal, by simp⟩

theorem WF_grabPalette (s : State) (h : WF s) (pal : Element)
    (text : String) (x y : ℚ) (o : Vec) :
    WF { (createWordBlock text x y false
        (modifyElement { s with isDragging := true, draggedElement := some pal.eid, offset := o }
          pal.eid (fun el => { el with dragging := true }))).1 with
      draggedElement := some s.nextElemId } := by
  have h1 := (modifyElement_sameFrame s pal.eid
    (fun el => { el with dragging := true }) (fun _ => ⟨rfl, rfl⟩)).wf h
  have h2 := WF_createWordBlock text x y _ h1
  refine WF_congr (createWordBlock text x y false (modifyElement s pal.eid
    (fun el => { el with dragging := true }))).1 _ rfl rfl rfl rfl rfl rfl ?_ h2
  intro d hd
  cases hd
  left
  rw [createWordBlock_tile]
  simp [newTile, newElement, modifyElement]

theorem startDrag_palette_eq (env : Env) (e : MouseEvent) (s : State) (h : WF s)
    (pal : Element) (hpal : pal ∈ s.palette) (he : e.target = some pal.eid)
    (hatt : pal.attached = true) :
    startDrag env e s =
      modifyBody
        { (createWordBlock pal.textContent (e.clientX - 40) (e.clientY - 40) false
            (modifyElement
              { s with
                isDragging := true
                draggedElement := some pal.eid
                offset := ⟨e.clientX - (env.rect pal).left, e.clientY - (env.rect pal).top⟩ }
              pal.eid (fun el => { el with dragging := true }))).1 with
          draggedElement := some s.nextElemId }
        s.nextBodyId Body.grab := by
  have hwf := WF_grabPalette s h pal pal.textContent (e.clientX - 40) (e.clientY - 40)
    ⟨e.clientX - (env.rect pal).left, e.clientY - (env.rect pal).top⟩
  have hmem : newTile s pal.textContent (e.clientX - 40) (e.clientY - 40) ∈
      ({ (createWordBlock pal.textContent (e.clientX - 40) (e.clientY - 40) false
            (modifyElement
              { s with
                isDragging := true
                draggedElement := some pal.eid
                offset := ⟨e.clientX - (env.rect pal).left, e.clientY - (env.rect pal).top⟩ }
              pal.eid (fun el => { el with dragging := true }))).1 with
          draggedElement := some s.nextElemId } : State).wordBlocks := by
    rw [createWordBlock_tile]
    simp only [List.mem_append, List.mem_singleton]
    right
    rfl
  have hfind := findElement_tile _ hwf _ hmem
  unfold startDrag
  simp only [he, findInDocument_palette s h pal hpal hatt, palette_any_true s pal hpal,
    if_true]
  have hne : (newTile s pal.textContent (e.clientX - 40) (e.clientY - 40)).element.eid =
      s.nextElemId := rfl
  rw [hne] at hfind
  have hr : (createWordBlock pal.textContent (e.clientX - 40) (e.clientY - 40) false
      (modifyElement
        { s with
          isDragging := true
          draggedElement := some pal.eid
          offset := ⟨e.clientX - (env.rect pal).left, e.clientY - (env.rect pal).top⟩ }
        pal.eid (fun el => { el with dragging := true }))).2 = s.nextElemId := by
    rw [createWordBlock_tile]
    rfl
  simp only [hr, Option.bind, hfind]
  rfl

/-! ## What `startDrag` does to the registry -/

theorem WF_grabTile (s : State) (h : WF s) (wb0 : WordBlock) (hwb : wb0 ∈ s.wordBlocks)
    (o : Vec) :
    WF (modifyElement
      { s with isDragging := true, draggedElement := some wb0.element.eid, offset := o }
      wb0.element.eid (fun el => { el with dragging := true })) := by
  have hs1 : WF { s with
      isDragging := true, draggedElement := some wb0.element.eid, offset := o } :=
    WF_congr s _ rfl rfl rfl rfl rfl rfl
      (fun d hd => by
        cases hd
        exact Or.inl (List.mem_map_of_mem (fun w : WordBlock => w.element.eid) hwb)) h
  exact (modifyElement_sameFrame _ wb0.element.eid
    (fun el => { el with dragging := true }) (fun _ => ⟨rfl, rfl⟩)).wf hs1

theorem findInDocument_cases (s : State) (t : Nat) (target : Element)
    (h : findInDocument s t = some target) :
    (∃ wb ∈ s.wordBlocks, wb.element = target ∧ wb.element.eid = t ∧
        wb.element.attached = true) ∨
      (∃ pal ∈ s.palette, pal = target ∧ pal.eid = t ∧ pal.attached = true) := by
  unfold findInDocument findElement at h
  simp only at h
  cases h1 : s.wordBlocks.find? (fun wb => wb.element.eid == t) with
  | some wb =>
    rw [h1] at h
    simp only [Option.filter] at h
    split at h
    · rename_i hatt
      left
      refine ⟨wb, List.mem_of_find?_eq_some h1, by simpa using h, ?_, hatt⟩
      simpa using List.find?_some h1
    · cases h
  | none =>
    rw [h1] at h
    cases h2 : s.palette.find? (fun el => el.eid == t) with
    | some el =>
      rw [h2] at h
      simp only [Option.filter] at h
      split at h
      · rename_i hatt
        right
        refine ⟨el, List.mem_of_find?_eq_some h2, by simpa using h, ?_, hatt⟩
        simpa using List.find?_some h2
      · cases h
    | none =>
      rw [h2] at h
      simp [Option.filter] at h

theorem WF_startDrag (env : Env) (e : MouseEvent) (s : State) (h : WF s) :
    WF (startDrag env e s) := by
  cases he : e.target with
  | none => simp only [startDrag, he]; exact h
  | some t =>
    cases hf : findInDocument s t with
    | none => simp only [startDrag, he, hf]; exact h
    | some target =>
      rcases findInDocument_cases s t target hf with ⟨wb, hwb, _, hid, hatt⟩ |
        ⟨pal, hpal, _, hid, hatt⟩
      · subst hid
        rw [startDrag_tile_eq env e s h wb hwb he hatt]
        exact (modifyBody_sameFrame _ wb.body.id Body.grab (fun _ => rfl)).wf
          (WF_grabTile s h wb hwb _)
      · subst hid
        rw [startDrag_palette_eq env e s h pal hpal he hatt]
        exact (modifyBody_sameFrame _ s.nextBodyId Body.grab (fun _ => rfl)).wf
          (WF_grabPalette s h pal _ _ _ _)

theorem startDrag_tile_wordBlocks (env : Env) (e : MouseEvent) (s : State) (h : WF s)
    (wb0 : WordBlock) (hwb : wb0 ∈ s.wordBlocks) (he : e.target = some wb0.element.eid)
    (hatt : wb0.element.attached = true) :
    (startDrag env e s).wordBlocks =
      s.wordBlocks.map (fun wb =>
        if wb.element.eid = wb0.element.eid then
          { wb with element := { wb.element with dragging := true }, body := wb.body.grab }
        else wb) := by
  rw [startDrag_tile_eq env e s h wb0 hwb he hatt,
    modifyBody_wordBlocks _ (WF_grabTile s h wb0 hwb _)]
  simp only [modifyElement, List.map_map]
  apply List.map_congr_left
  intro wb hw
  simp only [Function.comp]
  by_cases hid : wb.element.eid = wb0.element.eid
  · have : wb = wb0 := h.eid_inj hw hwb hid
    subst this
    simp
  · have hb : wb.body.id ≠ wb0.body.id := fun hb => hid (by rw [h.bodyId_inj hw hwb hb])
    simp [hid, hb]

theorem startDrag_palette_wordBlocks (env : Env) (e : MouseEvent) (s : State) (h : WF s)
    (pal : Element) (hpal : pal ∈ s.palette) (he : e.target = some pal.eid)
    (hatt : pal.attached = true) :
    (startDrag env e s).wordBlocks =
      s.wordBlocks ++
        [{ newTile s pal.textContent (e.clientX - 40) (e.clientY - 40) with
            body := (newTile s pal.textContent (e.clientX - 40) (e.clientY - 40)).body.grab }] := by
  rw [startDrag_palette_eq env e s h pal hpal he hatt,
    modifyBody_wordBlocks _ (WF_grabPalette s h pal _ _ _ _)]
  simp only [createWordBlock_tile, List.map_append, List.map_cons, List.map_nil]
  have hold : (modifyElement
      { s with
        isDragging := true
        draggedElement := some pal.eid
        offset := ⟨e.clientX - (env.rect pal).left, e.clientY - (env.rect pal).top⟩ }
      pal.eid (fun el => { el with dragging := true })).wordBlocks = s.wordBlocks := by
    simp only [modifyElement]
    apply map_ite_of_ne (fun wb : WordBlock => wb.element.eid)
    intro wb hw heq
    exact h.palette_ne hw hpal heq.symm
  rw [hold]
  congr 1
  · apply map_ite_of_ne (fun wb : WordBlock => wb.body.id)
    intro wb hw
    exact Nat.ne_of_lt (h.2.2.2.1 wb hw)
  · simp [newTile, Bodies.rectangle, modifyElement]

/-- C3, as the code has it: `startDrag` has no guard on a live session.  In every state
that satisfies the invariant, live session or not: with no word block under the pointer
it changes nothing; on the element of a registered tile it adds and removes no tile and
moves no body, and it changes that one tile only, setting the class `dragging`, making
its body static and clearing its velocities; on a palette entry it appends one tile at
the pointer, with a static body at rest, and leaves the tiles that were registered as
they were. -/
theorem startDrag_registry (env : Env) (e : MouseEvent) (s : State) (h : WF s) :
    (e.target = none → startDrag env e s = s) ∧
      (∀ wb0 ∈ s.wordBlocks, e.target = some wb0.element.eid →
        wb0.element.attached = true →
          (startDrag env e s).wordBlocks =
              s.wordBlocks.map (fun wb =>
                if wb.element.eid = wb0.element.eid then
                  { wb with
                    element := { wb.element with dragging := true }
                    body := ((wb.body.setStatic true).setVelocity ⟨0, 0⟩).setAngularVelocity 0 }
                else wb) ∧
            (startDrag env e s).wordBlocks.map
                (fun wb => (wb.element.eid, wb.body.id, wb.body.position)) =
              s.wordBlocks.map (fun wb => (wb.element.eid, wb.body.id, wb.body.position))) ∧
      (∀ pal ∈ s.palette, e.target = some pal.eid → pal.attached = true →
        (startDrag env e s).wordBlocks =
          s.wordBlocks ++
            [{ newTile s pal.textContent (e.clientX - 40) (e.clientY - 40) with
                body :=
                  { Bodies.rectangle s.nextBodyId e.clientX e.clientY with
                    isStatic := true } }]) := by
  refine ⟨?_, ?_, ?_⟩
  · intro he
    simp only [startDrag, he]
  · intro wb0 hwb he hatt
    have hw := startDrag_tile_wordBlocks env e s h wb0 hwb he hatt
    refine ⟨hw, ?_⟩
    rw [hw, List.map_map]
    apply List.map_congr_left
    intro wb _
    simp only [Function.comp]
    split <;> rfl
  · intro pal hpal he hatt
    rw [startDrag_palette_wordBlocks env e s h pal hpal he hatt]
    simp [newTile, Bodies.rectangle, Body.grab, Body.setStatic, Body.setVelocity,
      Body.setAngularVelocity]

/-- In `draggingCopy` a session is live; a second `startDrag` on the falling tile leaves
both tiles where they are and stops the falling one. -/
theorem startDrag_registry_witness :
    sessionLive draggingCopy = true ∧
      (startDrag plainEnv ⟨some 2, 310, 310⟩ draggingCopy).wordBlocks.map
          (fun wb => (wb.element.eid, wb.body.id, wb.body.position)) =
        draggingCopy.wordBlocks.map
          (fun wb => (wb.element.eid, wb.body.id, wb.body.position)) :=
  ⟨by decide!,
    ((startDrag_registry plainEnv ⟨some 2, 310, 310⟩ draggingCopy (by decide!)).2.1
      (draggingCopy.wordBlocks.get ⟨0, by decide!⟩) (by decide!) (by decide!)
      (by decide!)).2⟩

/-- C3 as stated fails: in `draggingCopy` a session is live on the copy (element 3) while
tile 2 falls; a second `startDrag` on tile 2 makes its body static and clears its
velocity, and a second `startDrag` on the palette entry adds a third tile. -/
theorem startDrag_registry_counterexample :
    sessionLive draggingCopy = true ∧
      draggingCopy.draggedElement = some 3 ∧
      draggingCopy.wordBlocks.map
          (fun wb => (wb.element.eid, wb.body.isStatic, wb.body.velocity)) =
        [(2, false, ⟨0, 3⟩), (3, true, ⟨0, 0⟩)] ∧
      (startDrag plainEnv ⟨some 2, 310, 310⟩ draggingCopy).wordBlocks.map
          (fun wb => (wb.element.eid, wb.body.isStatic, wb.body.velocity)) =
        [(2, true, ⟨0, 0⟩), (3, true, ⟨0, 0⟩)] ∧
      (startDrag plainEnv ⟨some 1, 30, 60⟩ draggingCopy).wordBlocks.map
          (fun wb => wb.element.eid) = [2, 3, 4] := by
  decide!

/-! ## Ending a drag -/

theorem droppedOnTrash_eq (env : Env) (s : State) (d : Nat) (el : Element)
    (hd : s.draggedElement = some d) (hf : findElement s d = some el) :
    droppedOnTrash env s =
      isOverTrash (env.rect { el with dragging := false }) env.trashRect := by
  simp [droppedOnTrash, hd, hf]

theorem endDrag_release_eq (env : Env) (random : ℚ) (s : State) (d : Nat) (el : Element)
    (hdrag : s.isDragging = true) (hd : s.draggedElement = some d)
    (hf : findElement s d = some el) (hover : droppedOnTrash env s = false) :
    endDrag env random s =
      updateSentence env
        { (match el.bodyId with
            | none =>
              modifyElement
                { modifyElement { s with isDragging := false } d
                    (fun el => { el with dragging := false }) with trashDragOver := false }
                d (fun el => { el with opacity := some 1 })
            | some bodyId =>
              modifyBody
                (modifyElement
                  { modifyElement { s with isDragging := false } d
                      (fun el => { el with dragging := false }) with trashDragOver := false }
                  d (fun el => { el with opacity := some 1 }))
                bodyId (Body.release s.physicsEnabled random el)) with
          draggedElement := none } := by
  rw [droppedOnTrash_eq env s d el hd hf] at hover
  unfold endDrag
  simp only [hdrag, Bool.not_true, Bool.false_eq_true, if_false, hd, hf, hover]
  rfl

theorem endDrag_trash_eq (env : Env) (random : ℚ) (s : State) (d : Nat) (el : Element)
    (hdrag : s.isDragging = true) (hd : s.draggedElement = some d)
    (hf : findElement s d = some el) (hover : droppedOnTrash env s = true) :
    endDrag env random s =
      updateSentence env
        { modifyElement
            (match el.bodyId with
              | none => modifyElement { s with isDragging := false } d
                  (fun el => { el with dragging := false })
              | some bodyId =>
                match (modifyElement { s with isDragging := false } d
                    (fun el => { el with dragging := false })).wordBlocks.findIdx?
                    (fun wb => wb.body.id == bodyId) with
                | none => modifyElement { s with isDragging := false } d
                    (fun el => { el with dragging := false })
                | some wordBlockIndex =>
                  match (modifyElement { s with isDragging := false } d
                      (fun el => { el with dragging := false })).wordBlocks.get?
                      wordBlockIndex with
                  | none => modifyElement { s with isDragging := false } d
                      (fun el => { el with dragging := false })
                  | some wordBlock =>
                    { modifyElement { s with isDragging := false } d
                        (fun el => { el with dragging := false }) with
                      world := (modifyElement { s with isDragging := false } d
                        (fun el => { el with dragging := false })).world.erase wordBlock.body.id
                      wordBlocks := (modifyElement { s with isDragging := false } d
                        (fun el => { el with dragging := false })).wordBlocks.eraseIdx
                          wordBlockIndex
                      detached := (modifyElement { s with isDragging := false } d
                        (fun el => { el with dragging := false })).detached ++
                          [wordBlock.element] })
            d (fun el => { el with attached := false }) with
          trashDragOver := true, draggedElement := none } := by
  rw [droppedOnTrash_eq env s d el hd hf] at hover
  unfold endDrag
  simp only [hdrag, Bool.not_true, Bool.false_eq_true, if_false, hd, hf, hover, if_true]

/-- Whatever branch it takes, `endDrag` leaves no session live. -/
theorem endDrag_sessionLive (env : Env) (random : ℚ) (s : State) (h : WF s) :
    sessionLive (endDrag env random s) = false := by
  cases hdrag : s.isDragging with
  | false => simp [endDrag, hdrag, sessionLive]
  | true =>
    cases hd : s.draggedElement with
    | none => simp [endDrag, hdrag, hd, sessionLive]
    | some d =>
      have hmem : d ∈ allEids s := by
        have := h.2.2.2.2.2.2.2.2 d (by rw [hd]; rfl)
        simp only [allEids, List.mem_append]
        rcases this with h1 | h1
        · exact Or.inl (Or.inl h1)
        · exact Or.inr h1
      obtain ⟨el, hf, _⟩ := findElement_isSome s d hmem
      cases hover : droppedOnTrash env s with
      | false =>
        rw [endDrag_release_eq env random s d el hdrag hd hf hover]
        simp [sessionLive, updateSentence]
      | true =>
        rw [endDrag_trash_eq env random s d el hdrag hd hf hover]
        simp [sessionLive, updateSentence]

/-! ## Releasing a tile outside the trash -/

theorem modifyElement_core (s : State) (d : Nat) (f : Element → Element) (hf : KeepsIds f) :
    (modifyElement s d f).wordBlocks.map WordBlock.core = s.wordBlocks.map WordBlock.core := by
  simp only [modifyElement, List.map_map]
  apply List.map_congr_left
  intro wb _
  simp only [Function.comp]
  split
  · simp [WordBlock.core, (hf wb.element).1]
  · rfl

theorem updateSentence_core (env : Env) (s : State) :
    (updateSentence env s).wordBlocks.map WordBlock.core = s.wordBlocks.map WordBlock.core := by
  simp [updateSentence, WordBlock.setInSentence, WordBlock.core, Function.comp_def]

theorem WF_stopDragging (s : State) (h : WF s) : WF { s with isDragging := false } :=
  WF_congr s _ rfl rfl rfl rfl rfl rfl (fun d hd => h.2.2.2.2.2.2.2.2 d hd) h

theorem WF_endSession (s : State) (h : WF s) : WF { s with draggedElement := none } :=
  WF_congr s _ rfl rfl rfl rfl rfl rfl (fun d hd => by cases hd) h

theorem WF_released (s : State) (h : WF s) (d : Nat) :
    WF (modifyElement
      { modifyElement { s with isDragging := false } d
          (fun el => { el with dragging := false }) with trashDragOver := false }
      d (fun el => { el with opacity := some 1 })) := by
  have h1 := (modifyElement_sameFrame _ d (fun el => { el with dragging := false })
    (fun _ => ⟨rfl, rfl⟩)).wf (WF_stopDragging s h)
  have h2 : WF { modifyElement { s with isDragging := false } d
      (fun el => { el with dragging := false }) with trashDragOver := false } :=
    WF_congr _ _ rfl rfl rfl rfl rfl rfl (fun d hd => h1.2.2.2.2.2.2.2.2 d hd) h1
  exact (modifyElement_sameFrame _ d (fun el => { el with opacity := some 1 })
    (fun _ => ⟨rfl, rfl⟩)).wf h2

theorem released_core (s : State) (d : Nat) :
    (modifyElement
      { modifyElement { s with isDragging := false } d
          (fun el => { el with dragging := false }) with trashDragOver := false }
      d (fun el => { el with opacity := some 1 })).wordBlocks.map WordBlock.core =
      s.wordBlocks.map WordBlock.core := by
  have a := modifyElement_core
    { modifyElement { s with isDragging := false } d
        (fun el => { el with dragging := false }) with trashDragOver := false }
    d (fun el => { el with opacity := some 1 }) (fun _ => ⟨rfl, rfl⟩)
  have b := modifyElement_core { s with isDragging := false } d
    (fun el => { el with dragging := false }) (fun _ => ⟨rfl, rfl⟩)
  exact a.trans b

/-- Dropping the dragged tile outside the trash changes, among the tiles of the
registry, the body of that tile only, and changes it as `Body.release` says. -/
theorem endDrag_release_core (env : Env) (random : ℚ) (s : State) (h : WF s)
    (hdrag : s.isDragging = true) (wb0 : WordBlock) (hwb : wb0 ∈ s.wordBlocks)
    (hd : s.draggedElement = some wb0.element.eid) (hover : droppedOnTrash env s = false) :
    (endDrag env random s).wordBlocks.map WordBlock.core =
      s.wordBlocks.map (fun wb =>
        (wb.element.eid,
          if wb.element.eid = wb0.element.eid then
            wb.body.release s.physicsEnabled random wb0.element
          else wb.body,
          wb.text)) := by
  have hf := findElement_tile s h wb0 hwb
  rw [endDrag_release_eq env random s _ _ hdrag hd hf hover, updateSentence_core]
  simp only [h.2.2.1 wb0 hwb]
  rw [modifyBody_wordBlocks _ (WF_released s h _)]
  have hfac : ∀ l : List WordBlock,
      (l.map (fun wb => if wb.body.id = wb0.body.id then
        { wb with body := wb.body.release s.physicsEnabled random wb0.element } else wb)).map
          WordBlock.core =
      (l.map WordBlock.core).map (fun c : Nat × Body × String =>
        (c.1, if c.2.1.id = wb0.body.id then
          c.2.1.release s.physicsEnabled random wb0.element else c.2.1, c.2.2)) := by
    intro l
    simp only [List.map_map]
    apply List.map_congr_left
    intro wb _
    simp only [Function.comp, WordBlock.core]
    split <;> rfl
  rw [hfac, released_core, List.map_map]
  apply List.map_congr_left
  intro wb hw
  simp only [Function.comp, WordBlock.core]
  by_cases hid : wb.element.eid = wb0.element.eid
  · have : wb = wb0 := h.eid_inj hw hwb hid
    subst this
    simp
  · have hb : wb.body.id ≠ wb0.body.id := fun hb => hid (by rw [h.bodyId_inj hw hwb hb])
    simp [hid, hb]

theorem WF_endDrag_release (env : Env) (random : ℚ) (s : State) (h : WF s) (d : Nat)
    (el : Element) (hdrag : s.isDragging = true) (hd : s.draggedElement = some d)
    (hf : findElement s d = some el) (hover : droppedOnTrash env s = false) :
    WF (endDrag env random s) := by
  rw [endDrag_release_eq env random s d el hdrag hd hf hover]
  have h0 := WF_released s h d
  have h1 : WF (match el.bodyId with
      | none =>
        modifyElement
          { modifyElement { s with isDragging := false } d
              (fun el => { el with dragging := false }) with trashDragOver := false }
          d (fun el => { el with opacity := some 1 })
      | some bodyId =>
        modifyBody
          (modifyElement
            { modifyElement { s with isDragging := false } d
                (fun el => { el with dragging := false }) with trashDragOver := false }
            d (fun el => { el with opacity := some 1 }))
          bodyId (Body.release s.physicsEnabled random el)) := by
    split
    · exact h0
    · apply (modifyBody_sameFrame _ _ _ ?_).wf h0
      intro x
      simp only [Body.release, Body.setPosition, Body.setStatic, Body.setVelocity]
      split <;> rfl
  refine (updateSentence_sameFrame env _).wf ?_
  exact WF_endSession _ h1

/-! ## Dropping a tile on the trash -/

theorem findIdx?_go_of_nodup {α : Type} (key : α → Nat) (pre post : List α) (a : α)
    (hpre : ∀ x ∈ pre, key x ≠ key a) (n : Nat) :
    List.findIdx? (fun x => key x == key a) (pre ++ a :: post) n = some (n + pre.length) := by
  induction pre generalizing n with
  | nil => simp [List.findIdx?_cons]
  | cons b pre ih =>
    have hb : (key b == key a) = false := by simpa using hpre b (List.mem_cons_self _ _)
    simp only [List.cons_append, List.findIdx?_cons, hb, Bool.false_eq_true, if_false,
      List.length_cons]
    rw [ih (fun x hx => hpre x (List.mem_cons_of_mem _ hx))]
    congr 1
    omega

/-- In a list without repeated keys, `findIndex` by key followed by `splice` removes
the entry with that key and nothing else. -/
theorem splice_of_nodup {α : Type} (key : α → Nat) (l : List α)
    (hnd : (l.map key).Nodup) (a : α) (ha : a ∈ l) :
    ∃ pre post, l = pre ++ a :: post ∧
      l.findIdx? (fun x => key x == key a) = some pre.length ∧
      l.get? pre.length = some a ∧ l.eraseIdx pre.length = pre ++ post ∧
      (∀ x ∈ pre ++ post, key x ≠ key a) := by
  obtain ⟨pre, post, rfl⟩ := List.append_of_mem ha
  have hne : ∀ x ∈ pre ++ post, key x ≠ key a := by
    simp only [List.map_append, List.map_cons] at hnd
    have h1 := List.nodup_middle.1 hnd
    rw [List.nodup_cons, ← List.map_append] at h1
    intro x hx heq
    exact h1.1 (heq ▸ List.mem_map_of_mem key hx)
  refine ⟨pre, post, rfl, ?_, ?_, ?_, hne⟩
  · have := findIdx?_go_of_nodup key pre post a
      (fun x hx => hne x (List.mem_append_left _ hx)) 0
    simpa using this
  · rw [List.get?_eq_getElem?, List.getElem?_append_right (Nat.le_refl _)]
    simp
  · rw [List.eraseIdx_append_of_length_le (Nat.le_refl _)]
    simp

theorem WF_splice (s : State) (h : WF s) (pre post : List WordBlock) (a : WordBlock)
    (hl : s.wordBlocks = pre ++ a :: post) :
    WF { s with
      world := s.world.erase a.body.id
      wordBlocks := pre ++ post
      detached := s.detached ++ [a.element]
      draggedElement := none } := by
  obtain ⟨h1, h2, h3, h4, h5, h6, h7, h8, h9⟩ := h
  have hsub : ∀ wb ∈ pre ++ post, wb ∈ s.wordBlocks := by
    intro wb hwb
    rw [hl]
    rcases List.mem_append.1 hwb with hwb | hwb
    · exact List.mem_append_left _ hwb
    · exact List.mem_append_right _ (List.mem_cons_of_mem _ hwb)
  have ha : a ∈ s.wordBlocks := by rw [hl]; simp
  have hne : ∀ wb ∈ pre ++ post, wb.body.id ≠ a.body.id := by
    rw [hl] at h1
    simp only [List.map_append, List.map_cons] at h1
    have h1 := List.nodup_middle.1 h1
    rw [List.nodup_cons, ← List.map_append] at h1
    intro x hx heq
    exact h1.1 (heq ▸ List.mem_map_of_mem (fun wb : WordBlock => wb.body.id) hx)
  have hall : List.Perm (allEids { s with
      world := s.world.erase a.body.id
      wordBlocks := pre ++ post
      detached := s.detached ++ [a.element]
      draggedElement := none }) (allEids s) := by
    simp only [allEids, hl, List.map_append, List.map_cons, List.map_nil]
    rw [List.perm_iff_count]
    intro x
    simp only [List.count_append, List.count_cons, List.count_nil]
    omega
  refine ⟨?_, ?_, ?_, ?_, ?_, ?_, ?_, ?_, ?_⟩
  · rw [hl] at h1
    refine h1.sublist (List.Sublist.map _ ?_)
    exact (List.Sublist.refl pre).append (List.sublist_cons_self a post)
  · exact hall.nodup_iff.2 h2
  · exact fun wb hwb => h3 wb (hsub wb hwb)
  · exact fun wb hwb => h4 wb (hsub wb hwb)
  · exact fun eid hmem => h5 eid (hall.mem_iff.1 hmem)
  · simp only [h6, hl, List.map_append, List.map_cons]
    have hnot : a.body.id ∉ pre.map (fun wb => wb.body.id) := by
      intro hm
      obtain ⟨x, hx, hxe⟩ := List.mem_map.1 hm
      exact hne x (List.mem_append_left _ hx) hxe
    rw [List.erase_append_right _ hnot, List.erase_cons_head]
  · intro el hel b hb
    rcases List.mem_append.1 hel with hel | hel
    · exact h7 el hel b hb
    · simp only [List.mem_singleton] at hel
      subst hel
      rw [h3 a ha] at hb
      cases hb
      exact h4 a ha
  · intro el hel wb hwb
    rcases List.mem_append.1 hel with hel | hel
    · exact h8 el hel wb (hsub wb hwb)
    · simp only [List.mem_singleton] at hel
      subst hel
      rw [h3 a ha]
      intro heq
      exact hne wb hwb (Option.some.inj heq).symm
  · intro d hd
    cases hd

theorem endDrag_trash_tile (env : Env) (random : ℚ) (s : State) (h : WF s)
    (hdrag : s.isDragging = true) (wb0 : WordBlock) (hwb : wb0 ∈ s.wordBlocks)
    (hd : s.draggedElement = some wb0.element.eid) (hover : droppedOnTrash env s = true) :
    ∃ pre post : List WordBlock,
      (modifyElement { s with isDragging := false } wb0.element.eid
          (fun el => { el with dragging := false })).wordBlocks =
        pre ++ { wb0 with element := { wb0.element with dragging := false } } :: post ∧
      (∀ x ∈ pre ++ post, x.body.id ≠ wb0.body.id) ∧
      endDrag env random s =
        updateSentence env
          { modifyElement
              { modifyElement { s with isDragging := false } wb0.element.eid
                  (fun el => { el with dragging := false }) with
                world := s.world.erase wb0.body.id
                wordBlocks := pre ++ post
                detached := (modifyElement { s with isDragging := false } wb0.element.eid
                  (fun el => { el with dragging := false })).detached ++
                    [{ wb0.element with dragging := false }] }
              wb0.element.eid (fun el => { el with attached := false }) with
            trashDragOver := true, draggedElement := none } := by
  have hf := findElement_tile s h wb0 hwb
  have h1 := (modifyElement_sameFrame _ wb0.element.eid
    (fun el => { el with dragging := false }) (fun _ => ⟨rfl, rfl⟩)).wf (WF_stopDragging s h)
  have hmem : ({ wb0 with element := { wb0.element with dragging := false } } : WordBlock) ∈
      (modifyElement { s with isDragging := false } wb0.element.eid
        (fun el => { el with dragging := false })).wordBlocks := by
    simp only [modifyElement, List.mem_map]
    exact ⟨wb0, hwb, by simp⟩
  obtain ⟨pre, post, hl, hidx, hget, herase, hne⟩ :=
    splice_of_nodup (fun wb : WordBlock => wb.body.id) _ h1.bodyIds_nodup _ hmem
  refine ⟨pre, post, hl, hne, ?_⟩
  rw [endDrag_trash_eq env random s _ _ hdrag hd hf hover]
  have hb := h.2.2.1 wb0 hwb
  simp only at hidx
  split
  · rename_i hnone
    rw [hb] at hnone
    cases hnone
  · rename_i b hsome
    rw [hb] at hsome
    cases hsome
    rw [hidx]
    simp only [hget, herase]
    rfl

theorem WF_endDrag_trash_tile (env : Env) (random : ℚ) (s : State) (h : WF s)
    (hdrag : s.isDragging = true) (wb0 : WordBlock) (hwb : wb0 ∈ s.wordBlocks)
    (hd : s.draggedElement = some wb0.element.eid) (hover : droppedOnTrash env s = true) :
    WF (endDrag env random s) := by
  obtain ⟨pre, post, hl, _, heq⟩ := endDrag_trash_tile env random s h hdrag wb0 hwb hd hover
  rw [heq]
  have h1 := (modifyElement_sameFrame _ wb0.element.eid
    (fun el => { el with dragging := false }) (fun _ => ⟨rfl, rfl⟩)).wf (WF_stopDragging s h)
  have h2 := WF_splice _ h1 pre post _ hl
  refine (updateSentence_sameFrame env _).wf ?_
  have h3 := modifyElement_sameFrame
    { modifyElement { s with isDragging := false } wb0.element.eid
        (fun el => { el with dragging := false }) with
      world := s.world.erase wb0.body.id
      wordBlocks := pre ++ post
      detached := (modifyElement { s with isDragging := false } wb0.element.eid
        (fun el => { el with dragging := false })).detached ++
          [{ wb0.element with dragging := false }] }
    wb0.element.eid (fun el => { el with attached := false }) (fun _ => ⟨rfl, rfl⟩)
  refine WF_congr _ _ ?_ ?_ ?_ ?_ ?_ ?_ (fun d hd => by cases hd) h2
  · exact h3.1
  · exact h3.2.1
  · exact h3.2.2.1
  · exact h3.2.2.2.1
  · exact h3.2.2.2.2.1
  · exact h3.2.2.2.2.2.1

/-- C5: when the target of the live drag session is the element of a registered tile and
the drag ends with that element over the trash can, `endDrag` removes that tile and no
other from the registry (the remaining tiles keep their identity, body and text and
their order), removes its body and no other from the world, after which the bodies in
the world are exactly the bodies of the registered tiles, and the sentence sequence it
recomputes does not contain the tile. -/
theorem trash_drop_removes_tile (env : Env) (random : ℚ) (s : State) (h : WF s)
    (hdrag : s.isDragging = true) (wb0 : WordBlock) (hwb : wb0 ∈ s.wordBlocks)
    (hd : s.draggedElement = some wb0.element.eid) (hover : droppedOnTrash env s = true) :
    (endDrag env random s).wordBlocks.map WordBlock.core =
        (s.wordBlocks.filter (fun wb => wb.element.eid != wb0.element.eid)).map
          WordBlock.core ∧
      (endDrag env random s).wordBlocks.length + 1 = s.wordBlocks.length ∧
      wb0.element.eid ∉ (endDrag env random s).wordBlocks.map (fun wb => wb.element.eid) ∧
      (endDrag env random s).world = s.world.erase wb0.body.id ∧
      wb0.body.id ∉ (endDrag env random s).world ∧
      (endDrag env random s).world =
        (endDrag env random s).wordBlocks.map (fun wb => wb.body.id) ∧
      (∀ w ∈ (endDrag env random s).sentenceWords, w.element.eid ≠ wb0.element.eid) := by
  have hwf := WF_endDrag_trash_tile env random s h hdrag wb0 hwb hd hover
  obtain ⟨pre, post, hl, hne, heq⟩ := endDrag_trash_tile env random s h hdrag wb0 hwb hd hover
  have h1 := (modifyElement_sameFrame _ wb0.element.eid
    (fun el => { el with dragging := false }) (fun _ => ⟨rfl, rfl⟩)).wf (WF_stopDragging s h)
  have hcore1 : (pre ++ { wb0 with element := { wb0.element with dragging := false } } ::
      post).map WordBlock.core = s.wordBlocks.map WordBlock.core := by
    rw [← hl]
    exact modifyElement_core { s with isDragging := false } wb0.element.eid
      (fun el => { el with dragging := false }) (fun _ => ⟨rfl, rfl⟩)
  have hmem1 : ∀ x ∈ pre ++ post, x ∈ (modifyElement { s with isDragging := false }
      wb0.element.eid (fun el => { el with dragging := false })).wordBlocks := by
    intro x hx
    rw [hl]
    rcases List.mem_append.1 hx with hx | hx
    · exact List.mem_append_left _ hx
    · exact List.mem_append_right _ (List.mem_cons_of_mem _ hx)
  have hmem0 : ({ wb0 with element := { wb0.element with dragging := false } } : WordBlock) ∈
      (modifyElement { s with isDragging := false } wb0.element.eid
        (fun el => { el with dragging := false })).wordBlocks := by
    rw [hl]; simp
  have heid : ∀ x ∈ pre ++ post, x.element.eid ≠ wb0.element.eid := by
    intro x hx hxe
    have := h1.eid_inj (hmem1 x hx) hmem0 hxe
    exact hne x hx (by rw [this])
  have hcore : (endDrag env random s).wordBlocks.map WordBlock.core =
      (pre ++ post).map WordBlock.core := by
    rw [heq, updateSentence_core]
    exact modifyElement_core _ wb0.element.eid (fun el => { el with attached := false })
      (fun _ => ⟨rfl, rfl⟩)
  have hfilter : (s.wordBlocks.filter (fun wb => wb.element.eid != wb0.element.eid)).map
      WordBlock.core = (pre ++ post).map WordBlock.core := by
    have e1 : (s.wordBlocks.filter (fun wb => wb.element.eid != wb0.element.eid)).map
        WordBlock.core = (s.wordBlocks.map WordBlock.core).filter
          (fun c => c.1 != wb0.element.eid) := by
      rw [List.filter_map]
      rfl
    rw [e1, ← hcore1, List.filter_map]
    congr 1
    rw [List.filter_append, List.filter_cons]
    have hp : ∀ l : List WordBlock, (∀ x ∈ l, x.element.eid ≠ wb0.element.eid) →
        l.filter ((fun c : Nat × Body × String => c.1 != wb0.element.eid) ∘ WordBlock.core) =
          l := by
      intro l hl
      rw [List.filter_eq_self]
      intro x hx
      simpa [WordBlock.core] using hl x hx
    rw [hp pre (fun x hx => heid x (List.mem_append_left _ hx)),
      hp post (fun x hx => heid x (List.mem_append_right _ hx))]
    simp [WordBlock.core]
  have heids : (endDrag env random s).wordBlocks.map (fun wb => wb.element.eid) =
      (pre ++ post).map (fun wb => wb.element.eid) := by
    have := congrArg (List.map (fun c : Nat × Body × String => c.1)) hcore
    simpa [List.map_map, Function.comp_def, WordBlock.core] using this
  have hworld : (endDrag env random s).world = s.world.erase wb0.body.id := by
    rw [heq]; rfl
  refine ⟨hcore.trans hfilter.symm, ?_, ?_, hworld, ?_, hwf.2.2.2.2.2.1, ?_⟩
  · have a := congrArg List.length hcore
    have b := congrArg List.length hcore1
    simp only [List.length_map, List.length_append, List.length_cons] at a b
    omega
  · rw [heids]
    intro hm
    obtain ⟨x, hx, hxe⟩ := List.mem_map.1 hm
    exact heid x hx hxe
  · rw [hwf.2.2.2.2.2.1]
    intro hm
    obtain ⟨x, hx, hxe⟩ := List.mem_map.1 hm
    have hx' : x.core ∈ (pre ++ post).map WordBlock.core := by
      rw [← hcore]
      exact List.mem_map_of_mem _ hx
    obtain ⟨y, hy, hye⟩ := List.mem_map.1 hx'
    have : y.body.id = x.body.id := by
      have := congrArg (fun c : Nat × Body × String => c.2.1.id) hye
      simpa [WordBlock.core] using this
    exact hne y hy (by rw [this, hxe])
  · intro w hw
    rw [heq, updateSentence_sentenceWords] at hw
    obtain ⟨w0, hw0, rfl⟩ := List.mem_map.1 hw
    have hw1 := List.mem_of_mem_filter
      ((wordsInSentence_perm env _ _).mem_iff.1 hw0)
    have hc := modifyElement_core
      { modifyElement { s with isDragging := false } wb0.element.eid
          (fun el => { el with dragging := false }) with
        world := s.world.erase wb0.body.id
        wordBlocks := pre ++ post
        detached := (modifyElement { s with isDragging := false } wb0.element.eid
          (fun el => { el with dragging := false })).detached ++
            [{ wb0.element with dragging := false }] }
      wb0.element.eid (fun el => { el with attached := false }) (fun _ => ⟨rfl, rfl⟩)
    have hw2 : w0.core ∈ (pre ++ post).map WordBlock.core := by
      have := List.mem_map_of_mem WordBlock.core hw1
      rw [← hc]
      exact this
    obtain ⟨x, hx, hxe⟩ := List.mem_map.1 hw2
    have hxe1 : x.element.eid = w0.element.eid := by
      have := congrArg (fun c : Nat × Body × String => c.1) hxe
      simpa [WordBlock.core] using this
    intro hcontra
    exact heid x hx (hxe1.trans hcontra)

/-! ## The invariant is kept by every call -/

theorem findElement_detached (s : State) (h : WF s) (d : Nat)
    (hd : d ∈ s.detached.map (fun el => el.eid)) :
    ∃ el ∈ s.detached, findElement s d = some el := by
  have hnd := h.2.1
  simp only [allEids, List.append_assoc] at hnd
  have h1 := List.nodup_append.1 hnd
  have h2 := List.nodup_append.1 h1.2.1
  have hreg : s.wordBlocks.find? (fun wb => wb.element.eid == d) = none := by
    rw [List.find?_eq_none]
    intro wb hwb hp
    have : wb.element.eid = d := by simpa using hp
    subst this
    exact h1.2.2 (List.mem_map_of_mem (fun w : WordBlock => w.element.eid) hwb)
      (List.mem_append_right _ hd)
  have hpal : s.palette.find? (fun el => el.eid == d) = none := by
    rw [List.find?_eq_none]
    intro el hel hp
    have : el.eid = d := by simpa using hp
    subst this
    exact h2.2.2 (List.mem_map_of_mem (fun e : Element => e.eid) hel) hd
  obtain ⟨el, hel, hed⟩ := List.mem_map.1 hd
  cases hdet : s.detached.find? (fun el => el.eid == d) with
  | none =>
    rw [List.find?_eq_none] at hdet
    exact absurd (by simpa using hed) (hdet el hel)
  | some e0 =>
    refine ⟨e0, List.mem_of_find?_eq_some hdet, ?_⟩
    simp only [findElement, hreg, hpal, hdet]

theorem WF_endDrag (env : Env) (random : ℚ) (s : State) (h : WF s) :
    WF (endDrag env random s) := by
  cases hdrag : s.isDragging with
  | false => simp only [endDrag, hdrag, Bool.not_false, if_true]; exact h
  | true =>
    cases hd : s.draggedElement with
    | none => simp only [endDrag, hdrag, hd, Bool.not_true, Bool.false_eq_true, if_false]; exact h
    | some d =>
      rcases h.2.2.2.2.2.2.2.2 d (by rw [hd]; rfl) with hreg | hdet
      · obtain ⟨wb0, hwb, rfl⟩ := List.mem_map.1 hreg
        cases hover : droppedOnTrash env s with
        | false =>
          exact WF_endDrag_release env random s h _ _ hdrag hd
            (findElement_tile s h wb0 hwb) hover
        | true => exact WF_endDrag_trash_tile env random s h hdrag wb0 hwb hd hover
      · obtain ⟨el, hel, hf⟩ := findElement_detached s h d hdet
        cases hover : droppedOnTrash env s with
        | false => exact WF_endDrag_release env random s h d el hdrag hd hf hover
        | true =>
          rw [endDrag_trash_eq env random s d el hdrag hd hf hover]
          have h1 := (modifyElement_sameFrame _ d
            (fun el => { el with dragging := false }) (fun _ => ⟨rfl, rfl⟩)).wf
            (WF_stopDragging s h)
          have hs2 : (match el.bodyId with
              | none => modifyElement { s with isDragging := false } d
                  (fun el => { el with dragging := false })
              | some bodyId =>
                match (modifyElement { s with isDragging := false } d
                    (fun el => { el with dragging := false })).wordBlocks.findIdx?
                    (fun wb => wb.body.id == bodyId) with
                | none => modifyElement { s with isDragging := false } d
                    (fun el => { el with dragging := false })
                | some wordBlockIndex =>
                  match (modifyElement { s with isDragging := false } d
                      (fun el => { el with dragging := false })).wordBlocks.get?
                      wordBlockIndex with
                  | none => modifyElement { s with isDragging := false } d
                      (fun el => { el with dragging := false })
                  | some wordBlock =>
                    { modifyElement { s with isDragging := false } d
                        (fun el => { el with dragging := false }) with
                      world := (modifyElement { s with isDragging := false } d
                        (fun el => { el with dragging := false })).world.erase wordBlock.body.id
                      wordBlocks := (modifyElement { s with isDragging := false } d
                        (fun el => { el with dragging := false })).wordBlocks.eraseIdx
                          wordBlockIndex
                      detached := (modifyElement { s with isDragging := false } d
                        (fun el => { el with dragging := false })).detached ++
                          [wordBlock.element] }) =
              modifyElement { s with isDragging := false } d
                (fun el => { el with dragging := false }) := by
            split
            · rfl
            · rename_i b hb
              have hnone : (modifyElement { s with isDragging := false } d
                  (fun el => { el with dragging := false })).wordBlocks.findIdx?
                    (fun wb => wb.body.id == b) = none := by
                rw [List.findIdx?_eq_none_iff]
                intro x hx
                simp only [modifyElement, List.mem_map] at hx
                obtain ⟨w, hw, rfl⟩ := hx
                have := h.2.2.2.2.2.2.2.1 el hel w hw
                rw [hb] at this
                have hne : w.body.id ≠ b := fun e => this (by rw [e])
                split <;> simpa using hne
              rw [hnone]
          rw [hs2]
          refine (updateSentence_sameFrame env _).wf ?_
          have h3 := modifyElement_sameFrame
            (modifyElement { s with isDragging := false } d
              (fun el => { el with dragging := false }))
            d (fun el => { el with attached := false }) (fun _ => ⟨rfl, rfl⟩)
          refine WF_congr _ _ ?_ ?_ ?_ ?_ ?_ ?_ (fun d hd => by cases hd) h1
          · exact h3.1
          · exact h3.2.1
          · exact h3.2.2.1
          · exact h3.2.2.2.1
          · exact h3.2.2.2.2.1
          · exact h3.2.2.2.2.2.1

theorem foldl_erase_self (wbs : List WordBlock) (tail : List Nat) :
    wbs.foldl (fun w wb => w.erase wb.body.id)
      (wbs.map (fun wb => wb.body.id) ++ tail) = tail := by
  induction wbs with
  | nil => rfl
  | cons a wbs ih => simp [ih]

theorem WF_resetPlayground (env : Env) (s : State) (h : WF s) :
    WF (resetPlayground env s) := by
  unfold resetPlayground
  refine (updateSentence_sameFrame env _).wf ?_
  obtain ⟨h1, h2, h3, h4, h5, h6, h7, h8, h9⟩ := h
  have hmap : (s.wordBlocks.map (fun wb => { wb.element with attached := false })).map
      (fun el => el.eid) = s.wordBlocks.map (fun wb => wb.element.eid) := by
    simp [List.map_map, Function.comp_def]
  have hall : List.Perm
      (allEids { s with
        world := s.wordBlocks.foldl (fun w wb => w.erase wb.body.id) s.world
        detached := s.detached ++
          s.wordBlocks.map (fun wb => { wb.element with attached := false })
        wordBlocks := []
        sentenceWords := [] }) (allEids s) := by
    simp only [allEids, List.map_append, hmap, List.map_nil, List.nil_append]
    rw [List.perm_iff_count]
    intro x
    simp only [List.count_append]
    omega
  refine ⟨by simp, hall.nodup_iff.2 h2, by simp, by simp,
    fun eid hmem => h5 eid (hall.mem_iff.1 hmem), ?_, ?_, by simp, ?_⟩
  · have := foldl_erase_self s.wordBlocks []
    simp only [List.append_nil] at this
    simp only [h6, this, List.map_nil]
  · intro el hel b hb
    rcases List.mem_append.1 hel with hel | hel
    · exact h7 el hel b hb
    · obtain ⟨wb, hwb, rfl⟩ := List.mem_map.1 hel
      simp only at hb
      rw [h3 wb hwb] at hb
      cases hb
      exact h4 wb hwb
  · intro d hd
    right
    simp only [List.map_append, hmap, List.mem_append]
    rcases h9 d hd with h | h
    · exact Or.inr h
    · exact Or.inl h

theorem WF_step (s : State) (a : Action) (h : WF s) : WF (step s a) := by
  cases a with
  | startDrag env e => exact WF_startDrag env e s h
  | drag env e => exact (drag_sameFrame env e s).wf h
  | endDrag env random => exact WF_endDrag env random s h
  | toggleGravity => exact (toggleGravity_sameFrame s).wf h
  | createWordBlock text x y => exact WF_createWordBlock text x y s h
  | resetPlayground env => exact WF_resetPlayground env s h
  | animate env engine => exact (animate_sameFrame env engine s).wf h

theorem WF_run (actions : List Action) (s : State) (h : WF s) : WF (run actions s) := by
  induction actions generalizing s with
  | nil => exact h
  | cons a actions ih => exact ih (step s a) (WF_step s a h)

theorem WF_init : WF init := by decide!

/-! ## From the palette to the playground -/

theorem run_duringDrag_sameFrame (mids : List Action)
    (hmids : ∀ a ∈ mids, a.duringDrag = true) (s : State) : SameFrame s (run mids s) := by
  induction mids generalizing s with
  | nil => exact SameFrame.refl s
  | cons a mids ih =>
    have ha := hmids a (List.mem_cons_self _ _)
    have hrest := ih (fun b hb => hmids b (List.mem_cons_of_mem _ hb)) (step s a)
    have hstep : SameFrame s (step s a) := by
      cases a with
      | startDrag env e => cases ha
      | drag env e => exact drag_sameFrame env e s
      | endDrag env random => cases ha
      | toggleGravity => exact toggleGravity_sameFrame s
      | createWordBlock text x y => cases ha
      | resetPlayground env => cases ha
      | animate env engine => exact animate_sameFrame env engine s
    exact hstep.trans hrest

theorem endDrag_physicsEnabled (env : Env) (random : ℚ) (s : State) :
    (endDrag env random s).physicsEnabled = s.physicsEnabled := by
  cases hdrag : s.isDragging with
  | false => simp only [endDrag, hdrag, Bool.not_false, if_true]
  | true =>
    cases hd : s.draggedElement with
    | none => simp only [endDrag, hdrag, hd, Bool.not_true, Bool.false_eq_true, if_false]
    | some d =>
      cases hf : findElement s d with
      | none => simp only [endDrag, hdrag, hd, hf, Bool.not_true, Bool.false_eq_true, if_false]
      | some el =>
        cases hover : droppedOnTrash env s with
        | false =>
          rw [endDrag_release_eq env random s d el hdrag hd hf hover,
            updateSentence_physicsEnabled]
          show (match el.bodyId with
            | none => _
            | some bodyId => _ : State).physicsEnabled = s.physicsEnabled
          split <;> rfl
        | true =>
          rw [endDrag_trash_eq env random s d el hdrag hd hf hover,
            updateSentence_physicsEnabled]
          show (match el.bodyId with
            | none => _
            | some bodyId => _ : State).physicsEnabled = s.physicsEnabled
          split
          · rfl
          · split
            · rfl
            · split <;> rfl

theorem Body.release_isStatic (pe : Bool) (random : ℚ) (el : Element) (b : Body) :
    (b.release pe random el).isStatic = !pe := by
  cases pe <;> rfl

theorem startDrag_palette_session (env : Env) (e : MouseEvent) (s : State) (h : WF s)
    (pal : Element) (hpal : pal ∈ s.palette) (he : e.target = some pal.eid)
    (hatt : pal.attached = true) :
    (startDrag env e s).isDragging = true ∧
      (startDrag env e s).draggedElement = some s.nextElemId := by
  rw [startDrag_palette_eq env e s h pal hpal he hatt]
  constructor
  · simp only [modifyBody, createWordBlock_tile]
    rfl
  · rfl

/-- C4: from a state that satisfies the invariant, grabbing a palette entry, then any
number of pointer moves, animation frames and gravity toggles, then a release with the
dragged element not over the trash can, leaves the registry with the tiles it had and
one new tile after them, and the body of the new tile is static exactly when the flag is
off at the release. -/
theorem palette_drag_drop (env : Env) (e : MouseEvent) (s : State) (h : WF s)
    (pal : Element) (hpal : pal ∈ s.palette) (he : e.target = some pal.eid)
    (hatt : pal.attached = true) (mids : List Action)
    (hmids : ∀ a ∈ mids, a.duringDrag = true) (envEnd : Env) (random : ℚ)
    (hout : droppedOnTrash envEnd (run mids (startDrag env e s)) = false) :
    (endDrag envEnd random (run mids (startDrag env e s))).wordBlocks.map
          (fun wb => wb.element.eid) =
        s.wordBlocks.map (fun wb => wb.element.eid) ++ [s.nextElemId] ∧
      s.nextElemId ∉ s.wordBlocks.map (fun wb => wb.element.eid) ∧
      (endDrag envEnd random (run mids (startDrag env e s))).wordBlocks.length =
        s.wordBlocks.length + 1 ∧
      (endDrag envEnd random (run mids (startDrag env e s))).physicsEnabled =
        (run mids (startDrag env e s)).physicsEnabled ∧
      (∀ wb ∈ (endDrag envEnd random (run mids (startDrag env e s))).wordBlocks,
        wb.element.eid = s.nextElemId →
          wb.body.isStatic =
            !(endDrag envEnd random (run mids (startDrag env e s))).physicsEnabled) := by
  have hs1 := WF_startDrag env e s h
  have hsess := startDrag_palette_session env e s h pal hpal he hatt
  have hw1 := startDrag_palette_wordBlocks env e s h pal hpal he hatt
  have hframe := run_duringDrag_sameFrame mids hmids (startDrag env e s)
  have hs2 := hframe.wf hs1
  have hdrag : (run mids (startDrag env e s)).isDragging = true := by
    rw [hframe.2.2.2.2.2.2.2, hsess.1]
  have hd : (run mids (startDrag env e s)).draggedElement = some s.nextElemId := by
    rw [hframe.2.2.2.2.2.2.1, hsess.2]
  have heids2 : (run mids (startDrag env e s)).wordBlocks.map (fun wb => wb.element.eid) =
      s.wordBlocks.map (fun wb => wb.element.eid) ++ [s.nextElemId] := by
    have := congrArg (List.map (fun p : Nat × Option Nat × Nat => p.1)) hframe.1
    simp only [List.map_map, Function.comp_def, WordBlock.link] at this
    rw [this, hw1]
    simp [newTile, newElement]
  have hfresh : s.nextElemId ∉ s.wordBlocks.map (fun wb => wb.element.eid) := by
    intro hm
    have : s.nextElemId ∈ allEids s := by
      simp only [allEids, List.mem_append]
      exact Or.inl (Or.inl hm)
    exact Nat.lt_irrefl _ (h.2.2.2.2.1 _ this)
  have hmem : s.nextElemId ∈
      (run mids (startDrag env e s)).wordBlocks.map (fun wb => wb.element.eid) := by
    rw [heids2]; simp
  obtain ⟨wb0, hwb0, hid0⟩ := List.mem_map.1 hmem
  have hcore := endDrag_release_core envEnd random _ hs2 hdrag wb0 hwb0
    (by rw [hd, hid0]) hout
  have heids : (endDrag envEnd random (run mids (startDrag env e s))).wordBlocks.map
      (fun wb => wb.element.eid) =
        s.wordBlocks.map (fun wb => wb.element.eid) ++ [s.nextElemId] := by
    have := congrArg (List.map (fun c : Nat × Body × String => c.1)) hcore
    simp only [List.map_map, Function.comp_def, WordBlock.core] at this
    rw [this, heids2]
  refine ⟨heids, hfresh, ?_, endDrag_physicsEnabled _ _ _, ?_⟩
  · have := congrArg List.length heids
    simpa using this
  · intro wb hwb hid
    have hc : wb.core ∈ (endDrag envEnd random (run mids (startDrag env e s))).wordBlocks.map
        WordBlock.core := List.mem_map_of_mem _ hwb
    rw [hcore] at hc
    obtain ⟨w, _, hwe⟩ := List.mem_map.1 hc
    simp only [WordBlock.core, Prod.mk.injEq] at hwe
    have hw0 : w.element.eid = wb0.element.eid := by rw [hwe.1, hid, hid0]
    rw [if_pos hw0] at hwe
    rw [← hwe.2.1, Body.release_isStatic, endDrag_physicsEnabled]

/-- After `init`, the first palette entry is grabbed, moved twice with gravity switched
on in between and one frame run, and released at (500, 400), away from the trash can:
one tile, and its body is not static, the flag being on. -/
theorem palette_drag_drop_witness :
    (endDrag plainEnv (1 / 4)
        (run [.drag plainEnv ⟨none, 200, 300⟩, .toggleGravity,
            .animate plainEnv fallingEngine, .drag plainEnv ⟨none, 500, 400⟩]
          (startDrag plainEnv ⟨some 1, 30, 60⟩ init))).physicsEnabled = true ∧
      ∀ wb ∈ (endDrag plainEnv (1 / 4)
          (run [.drag plainEnv ⟨none, 200, 300⟩, .toggleGravity,
              .animate plainEnv fallingEngine, .drag plainEnv ⟨none, 500, 400⟩]
            (startDrag plainEnv ⟨some 1, 30, 60⟩ init))).wordBlocks,
        wb.element.eid = init.nextElemId →
          wb.body.isStatic =
            !(endDrag plainEnv (1 / 4)
              (run [.drag plainEnv ⟨none, 200, 300⟩, .toggleGravity,
                  .animate plainEnv fallingEngine, .drag plainEnv ⟨none, 500, 400⟩]
                (startDrag plainEnv ⟨some 1, 30, 60⟩ init))).physicsEnabled :=
  ⟨by decide!,
    (palette_drag_drop plainEnv ⟨some 1, 30, 60⟩ init WF_init
      (init.palette.get ⟨0, by decide!⟩) (by decide!) (by decide!) (by decide!)
      [.drag plainEnv ⟨none, 200, 300⟩, .toggleGravity,
        .animate plainEnv fallingEngine, .drag plainEnv ⟨none, 500, 400⟩]
      (by decide!) plainEnv (1 / 4) (by decide!)).2.2.2.2⟩

/-- The tile of `overTrash` is dropped on the trash can: its body leaves the world and
the registry is empty afterwards. -/
theorem trash_drop_removes_tile_witness :
    ((endDrag plainEnv 0 overTrash).world =
        overTrash.world.erase (overTrash.wordBlocks.get ⟨0, by decide!⟩).body.id ∧
      (endDrag plainEnv 0 overTrash).world =
        (endDrag plainEnv 0 overTrash).wordBlocks.map (fun wb => wb.body.id)) ∧
      overTrash.wordBlocks.map (fun wb => (wb.element.eid, wb.body.id)) = [(31, 1)] ∧
      overTrash.world = [1] ∧
      (endDrag plainEnv 0 overTrash).wordBlocks = [] ∧
      (endDrag plainEnv 0 overTrash).world = [] ∧
      (endDrag plainEnv 0 overTrash).sentenceWords = [] := by
  have h := trash_drop_removes_tile plainEnv 0 overTrash (by decide!) (by decide!)
    (overTrash.wordBlocks.get ⟨0, by decide!⟩) (by decide!) (by decide!) (by decide!)
  exact ⟨⟨h.2.2.2.1, h.2.2.2.2.2.1⟩, by decide!⟩

/-! ## The session and the destruction of its target -/

theorem endDrag_draggedElement (env : Env) (random : ℚ) (s : State) (h : WF s)
    (hdrag : s.isDragging = true) : (endDrag env random s).draggedElement = none := by
  cases hd : s.draggedElement with
  | none => simp [endDrag, hdrag, hd]
  | some d =>
    have hmem : d ∈ allEids s := by
      have := h.2.2.2.2.2.2.2.2 d (by rw [hd]; rfl)
      simp only [allEids, List.mem_append]
      rcases this with h1 | h1
      · exact Or.inl (Or.inl h1)
      · exact Or.inr h1
    obtain ⟨el, hf, _⟩ := findElement_isSome s d hmem
    cases hover : droppedOnTrash env s with
    | false =>
      rw [endDrag_release_eq env random s d el hdrag hd hf hover]
      rfl
    | true =>
      rw [endDrag_trash_eq env random s d el hdrag hd hf hover]
      rfl

/-- C8, as the code has it: `endDrag`, and so a drop on the trash can, leaves no session
live and, when it ran with `isDragging` set, no dragged element; `resetPlayground`
empties the registry and does not touch the session, so a session that was live stays
live with the same target, which is then no tile of the registry; the next `endDrag`
ends it. -/
theorem session_after_destroy (env : Env) (random : ℚ) (s : State) (h : WF s) :
    sessionLive (endDrag env random s) = false ∧
      (s.isDragging = true → (endDrag env random s).draggedElement = none) ∧
      (resetPlayground env s).wordBlocks = [] ∧
      (resetPlayground env s).isDragging = s.isDragging ∧
      (resetPlayground env s).draggedElement = s.draggedElement ∧
      sessionLive (resetPlayground env s) = sessionLive s ∧
      (∀ (env2 : Env) (random2 : ℚ),
        sessionLive (endDrag env2 random2 (resetPlayground env s)) = false) := by
  refine ⟨endDrag_sessionLive env random s h, endDrag_draggedElement env random s h,
    ?_, rfl, rfl, rfl, ?_⟩
  · simp [resetPlayground, updateSentence]
  · intro env2 random2
    exact endDrag_sessionLive env2 random2 _ (WF_resetPlayground env s h)

/-- In `grabbedTile` the session is live; it is over after a drop, and still live after a
reset. -/
theorem session_after_destroy_witness :
    sessionLive (endDrag plainEnv 0 grabbedTile) = false ∧
      sessionLive (resetPlayground plainEnv grabbedTile) = sessionLive grabbedTile ∧
      sessionLive grabbedTile = true :=
  ⟨(session_after_destroy plainEnv 0 grabbedTile (by decide!)).1,
    (session_after_destroy plainEnv 0 grabbedTile (by decide!)).2.2.2.2.2.1, by decide!⟩

/-- C8 as stated fails for `resetPlayground`: in `grabbedTile` the session is live on the
only tile (element 31); after `resetPlayground` the registry is empty and the session is
still live on element 31. -/
theorem session_after_destroy_counterexample :
    sessionLive grabbedTile = true ∧
      grabbedTile.draggedElement = some 31 ∧
      grabbedTile.wordBlocks.map (fun wb => wb.element.eid) = [31] ∧
      (resetPlayground plainEnv grabbedTile).wordBlocks = [] ∧
      sessionLive (resetPlayground plainEnv grabbedTile) = true ∧
      (resetPlayground plainEnv grabbedTile).draggedElement = some 31 := by
  decide!

/-! ## The class `dragging` and the target of the session -/

/-- Whenever a palette entry is grabbed, the copy that becomes the target of the session
does not carry the class `dragging`, and if gravity is then switched on its body is made
free although it is being dragged. -/
theorem startDrag_palette_unmarked (env : Env) (e : MouseEvent) (s : State) (h : WF s)
    (pal : Element) (hpal : pal ∈ s.palette) (he : e.target = some pal.eid)
    (hatt : pal.attached = true) :
    (startDrag env e s).draggedElement = some s.nextElemId ∧
      (∃ wb ∈ (startDrag env e s).wordBlocks, wb.element.eid = s.nextElemId) ∧
      (∀ wb ∈ (startDrag env e s).wordBlocks, wb.element.eid = s.nextElemId →
        wb.element.dragging = false) ∧
      (s.physicsEnabled = false →
        ∀ wb ∈ (toggleGravity (startDrag env e s)).wordBlocks,
          wb.element.eid = s.nextElemId → wb.body.isStatic = false) := by
  have hw := startDrag_palette_wordBlocks env e s h pal hpal he hatt
  have hold : ∀ wb ∈ s.wordBlocks, wb.element.eid ≠ s.nextElemId := by
    intro wb hwb heq
    have : wb.element.eid ∈ allEids s := by
      simp only [allEids, List.mem_append]
      exact Or.inl (Or.inl (List.mem_map_of_mem (fun w : WordBlock => w.element.eid) hwb))
    exact Nat.lt_irrefl _ (heq ▸ h.2.2.2.2.1 _ this)
  have hflag : (startDrag env e s).physicsEnabled = s.physicsEnabled := by
    rw [startDrag_palette_eq env e s h pal hpal he hatt]
    simp only [modifyBody, createWordBlock_tile]
    rfl
  refine ⟨(startDrag_palette_session env e s h pal hpal he hatt).2, ?_, ?_, ?_⟩
  · rw [hw]
    exact ⟨_, List.mem_append_right _ (List.mem_singleton_self _), rfl⟩
  · intro wb hwb hid
    rw [hw] at hwb
    rcases List.mem_append.1 hwb with hwb | hwb
    · exact absurd hid (hold wb hwb)
    · rw [List.mem_singleton.1 hwb]
      rfl
  · intro hoff wb hwb hid
    have hoff2 : (startDrag env e s).physicsEnabled = false := by rw [hflag, hoff]
    simp only [toggleGravity, hoff2, Bool.not_false, if_true, List.mem_map] at hwb
    obtain ⟨w, hw0, rfl⟩ := hwb
    rw [hw] at hw0
    rcases List.mem_append.1 hw0 with hw0 | hw0
    · have hne := hold w hw0
      exfalso
      apply hne
      rw [← hid]
      split <;> rfl
    · rw [List.mem_singleton.1 hw0]
      rfl

/-- C2 fails on the code: when a palette entry is grabbed (`grabbedPalette`), the class
`dragging` goes to the palette entry (element 1) and not to the copy (element 31) that
becomes the target of the session, so `toggleGravity` does not exempt the dragged tile
and makes its body free during the drag; a tile grabbed directly (`grabbedTile`) carries
the class and stays static.  After two `startDrag` calls without an `endDrag`
(`grabbedTwice`) two tiles carry the class while the session targets the second. -/
theorem dragging_marker_on_palette_entry :
    sessionLive grabbedPalette = true ∧
      grabbedPalette.draggedElement = some 31 ∧
      grabbedPalette.wordBlocks.map
          (fun wb => (wb.element.eid, wb.element.dragging, wb.body.isStatic)) =
        [(31, false, true)] ∧
      (grabbedPalette.palette.filter (fun el => el.dragging)).map (fun el => el.eid) = [1] ∧
      sessionLive (toggleGravity grabbedPalette) = true ∧
      (toggleGravity grabbedPalette).wordBlocks.map
          (fun wb => (wb.element.eid, wb.element.dragging, wb.body.isStatic)) =
        [(31, false, false)] ∧
      grabbedTile.draggedElement = some 31 ∧
      grabbedTile.wordBlocks.map
          (fun wb => (wb.element.eid, wb.element.dragging, wb.body.isStatic)) =
        [(31, true, true)] ∧
      (toggleGravity grabbedTile).wordBlocks.map
          (fun wb => (wb.element.eid, wb.element.dragging, wb.body.isStatic)) =
        [(31, true, true)] ∧
      sessionLive grabbedTwice = true ∧
      grabbedTwice.draggedElement = some 32 ∧
      grabbedTwice.wordBlocks.map (fun wb => (wb.element.eid, wb.element.dragging)) =
        [(31, true), (32, true)] := by
  decide!

/-! ## The position written at the release -/

/-- The truncation `parseInt` performs is the identity exactly on whole numbers. -/
theorem parseInt_eq_self_iff (q : ℚ) : parseInt q = q ↔ q.den = 1 := by
  constructor
  · intro h
    rw [← h]
    exact Rat.intCast_den _
  · intro h
    unfold parseInt
    rw [h]
    simp only [Nat.cast_one, Int.tdiv_one]
    exact Rat.coe_int_num_of_den_eq_one h

theorem Body.release_position (pe : Bool) (random : ℚ) (el : Element) (b : Body) :
    (b.release pe random el).position = ⟨parseInt el.left + 40, parseInt el.top + 40⟩ := by
  cases pe <;> rfl

/-- Dropping the dragged tile outside the trash puts its body at the truncated style
position of its element plus (40, 40). -/
theorem endDrag_release_position (env : Env) (random : ℚ) (s : State) (h : WF s)
    (hdrag : s.isDragging = true) (wb0 : WordBlock) (hwb : wb0 ∈ s.wordBlocks)
    (hd : s.draggedElement = some wb0.element.eid) (hover : droppedOnTrash env s = false) :
    ∀ wb ∈ (endDrag env random s).wordBlocks, wb.element.eid = wb0.element.eid →
      wb.body.position = ⟨parseInt wb0.element.left + 40, parseInt wb0.element.top + 40⟩ := by
  intro wb hmem hid
  have hcore := endDrag_release_core env random s h hdrag wb0 hwb hd hover
  have hc : wb.core ∈ (endDrag env random s).wordBlocks.map WordBlock.core :=
    List.mem_map_of_mem _ hmem
  rw [hcore] at hc
  obtain ⟨w, _, hwe⟩ := List.mem_map.1 hc
  simp only [WordBlock.core, Prod.mk.injEq] at hwe
  have hw0 : w.element.eid = wb0.element.eid := by rw [hwe.1, hid]
  rw [if_pos hw0] at hwe
  rw [← hwe.2.1, Body.release_position]

theorem mem_updateSentence (env : Env) (s : State) (wb : WordBlock)
    (h : wb ∈ (updateSentence env s).wordBlocks) :
    ∃ w ∈ s.wordBlocks, ∃ v : Bool, wb = w.setInSentence v := by
  simp only [updateSentence, List.mem_map] at h
  obtain ⟨w, hw, rfl⟩ := h
  exact ⟨w, hw, _, rfl⟩

theorem mem_modifyElement (s : State) (d : Nat) (f : Element → Element) (wb : WordBlock)
    (h : wb ∈ (modifyElement s d f).wordBlocks) :
    ∃ w ∈ s.wordBlocks,
      wb = if w.element.eid = d then { w with element := f w.element } else w := by
  simp only [modifyElement, List.mem_map] at h
  obtain ⟨w, hw, rfl⟩ := h
  exact ⟨w, hw, rfl⟩

/-- A pointer move puts the style position of the dragged tile at the pointer minus the
offset, and its body at that position plus (40, 40). -/
theorem drag_tile_position (env : Env) (e : MouseEvent) (s : State) (h : WF s)
    (hdrag : s.isDragging = true) (wb0 : WordBlock) (hwb : wb0 ∈ s.wordBlocks)
    (hd : s.draggedElement = some wb0.element.eid) :
    ∀ wb ∈ (drag env e s).wordBlocks, wb.element.eid = wb0.element.eid →
      wb.element.left = e.clientX - s.offset.x ∧ wb.element.top = e.clientY - s.offset.y ∧
        wb.body.position = ⟨e.clientX - s.offset.x + 40, e.clientY - s.offset.y + 40⟩ := by
  have hf := findElement_tile s h wb0 hwb
  have hb := h.2.2.1 wb0 hwb
  have h1 := (modifyElement_sameFrame s wb0.element.eid
    (fun el => { el with left := e.clientX - s.offset.x, top := e.clientY - s.offset.y })
    (fun _ => ⟨rfl, rfl⟩)).wf h
  intro wb hmem hid
  unfold drag at hmem
  simp only [hdrag, Bool.not_true, Bool.false_eq_true, if_false, hd, hf, hb] at hmem
  obtain ⟨w3, hw3, v, rfl⟩ := mem_updateSentence _ _ _ hmem
  dsimp only at hw3
  obtain ⟨w2, hw2, rfl⟩ := mem_modifyElement _ _ _ _ hw3
  rw [modifyBody_wordBlocks _ h1] at hw2
  obtain ⟨w1, hw1, rfl⟩ := List.mem_map.1 hw2
  obtain ⟨w, hw, rfl⟩ := mem_modifyElement _ _ _ _ hw1
  by_cases hw0 : w.element.eid = wb0.element.eid
  · have : w = wb0 := h.eid_inj hw hwb hw0
    subst this
    simp [WordBlock.setInSentence, Body.setPosition]
  · exfalso
    apply hw0
    rw [← hid]
    simp only [WordBlock.setInSentence, hw0, if_false]
    split <;> simp [hw0]

/-- The position `endDrag` gives the body of a tile dropped outside the trash, after a
last pointer move at `e`: the coordinates the move computed, pointer minus offset, each
passed through `parseInt`, that is truncated toward zero where JavaScript prints it in
decimal notation, plus (40, 40). -/
theorem drop_position (env : Env) (e : MouseEvent) (envEnd : Env) (random : ℚ) (s : State)
    (h : WF s) (hdrag : s.isDragging = true) (wb0 : WordBlock) (hwb : wb0 ∈ s.wordBlocks)
    (hd : s.draggedElement = some wb0.element.eid)
    (hout : droppedOnTrash envEnd (drag env e s) = false) :
    ∀ wb ∈ (endDrag envEnd random (drag env e s)).wordBlocks,
      wb.element.eid = wb0.element.eid →
        wb.body.position =
          ⟨parseInt (e.clientX - s.offset.x) + 40, parseInt (e.clientY - s.offset.y) + 40⟩ := by
  have hframe := drag_sameFrame env e s
  have hwf := hframe.wf h
  have hdrag2 : (drag env e s).isDragging = true := by rw [hframe.2.2.2.2.2.2.2, hdrag]
  have hd2 : (drag env e s).draggedElement = some wb0.element.eid := by
    rw [hframe.2.2.2.2.2.2.1, hd]
  have heids : (drag env e s).wordBlocks.map (fun wb => wb.element.eid) =
      s.wordBlocks.map (fun wb => wb.element.eid) := by
    have := congrArg (List.map (fun p : Nat × Option Nat × Nat => p.1)) hframe.1
    simpa only [List.map_map, Function.comp_def, WordBlock.link] using this
  have hmem : wb0.element.eid ∈ (drag env e s).wordBlocks.map (fun wb => wb.element.eid) := by
    rw [heids]
    exact List.mem_map_of_mem (fun wb : WordBlock => wb.element.eid) hwb
  obtain ⟨wb1, hwb1, hid1⟩ := List.mem_map.1 hmem
  have hpos := drag_tile_position env e s h hdrag wb0 hwb hd wb1 hwb1 hid1
  intro wb hwbm hid
  have := endDrag_release_position envEnd random (drag env e s) hwf hdrag2 wb1 hwb1
    (by rw [hd2, hid1]) hout wb hwbm (by rw [hid, hid1])
  rw [this, hpos.1, hpos.2.1]

/-- C11 fails on the code: in `fractionalDrag` the last pointer move computed the tile
origin (290.5, 390) and `drag` put the body at (330.5, 430), that origin plus (40, 40);
the release outside the trash, by `parseInt`, moves the body to (330, 430).  In
`negativeDrag` the computed origin is (-9.5, 390) and the release puts the body at
(31, 430) instead of (30.5, 430). -/
theorem release_truncates_position :
    sessionLive fractionalDrag = true ∧
      droppedOnTrash plainEnv fractionalDrag = false ∧
      fractionalDrag.offset = ⟨19 / 2, 10⟩ ∧
      fractionalDrag.wordBlocks.map
          (fun wb => (wb.element.eid, wb.element.left, wb.element.top, wb.body.position)) =
        [(31, 581 / 2, 390, ⟨661 / 2, 430⟩)] ∧
      (endDrag plainEnv 0 fractionalDrag).wordBlocks.map
          (fun wb => (wb.element.eid, wb.element.left, wb.element.top, wb.body.position)) =
        [(31, 581 / 2, 390, ⟨330, 430⟩)] ∧
      sessionLive negativeDrag = true ∧
      droppedOnTrash plainEnv negativeDrag = false ∧
      negativeDrag.wordBlocks.map
          (fun wb => (wb.element.eid, wb.element.left, wb.element.top, wb.body.position)) =
        [(31, -19 / 2, 390, ⟨61 / 2, 430⟩)] ∧
      (endDrag plainEnv 0 negativeDrag).wordBlocks.map
          (fun wb => (wb.element.eid, wb.element.left, wb.element.top, wb.body.position)) =
        [(31, -19 / 2, 390, ⟨31, 430⟩)] := by
  decide!

/-! ## The texts of the tiles -/

theorem vocabulary_of_forall {s t : State} (h : Vocabulary s)
    (hw : ∀ wb ∈ t.wordBlocks, ∃ w ∈ s.wordBlocks,
      wb.text = w.text ∧ wb.element.textContent = w.element.textContent)
    (hp : t.palette = s.palette) : Vocabulary t := by
  refine ⟨?_, ?_⟩
  · intro wb hwb
    obtain ⟨w, hwm, h1, h2⟩ := hw wb hwb
    rw [h1, h2]
    exact h.1 w hwm
  · rw [hp]
    exact h.2

theorem vocabulary_of_subset {s t : State} (h : Vocabulary s)
    (hw : ∀ wb ∈ t.wordBlocks, wb ∈ s.wordBlocks) (hp : t.palette = s.palette) :
    Vocabulary t :=
  ⟨fun wb hwb => h.1 wb (hw wb hwb), by rw [hp]; exact h.2⟩

theorem vocabulary_modifyElement {s : State} (h : Vocabulary s) (d : Nat)
    (f : Element → Element) (hf : ∀ el, (f el).textContent = el.textContent) :
    Vocabulary (modifyElement s d f) := by
  refine ⟨?_, ?_⟩
  · intro wb hwb
    simp only [modifyElement, List.mem_map] at hwb
    obtain ⟨w, hwm, rfl⟩ := hwb
    split
    · simpa [hf] using h.1 w hwm
    · exact h.1 w hwm
  · intro el hel
    simp only [modifyElement, List.mem_map] at hel
    obtain ⟨e0, hem, rfl⟩ := hel
    split
    · rw [hf]; exact h.2 e0 hem
    · exact h.2 e0 hem

theorem mem_modifyFirst {α : Type} (p : α → Bool) (f : α → α) (l : List α) (x : α)
    (hx : x ∈ modifyFirst p f l) : x ∈ l ∨ ∃ a ∈ l, x = f a := by
  induction l with
  | nil => cases hx
  | cons a l ih =>
    simp only [modifyFirst] at hx
    split at hx
    · rcases List.mem_cons.1 hx with rfl | hx
      · exact Or.inr ⟨a, List.mem_cons_self _ _, rfl⟩
      · exact Or.inl (List.mem_cons_of_mem _ hx)
    · rcases List.mem_cons.1 hx with rfl | hx
      · exact Or.inl (List.mem_cons_self _ _)
      · rcases ih hx with h1 | ⟨b, hb, rfl⟩
        · exact Or.inl (List.mem_cons_of_mem _ h1)
        · exact Or.inr ⟨b, List.mem_cons_of_mem _ hb, rfl⟩

theorem vocabulary_modifyBody {s : State} (h : Vocabulary s) (b : Nat) (f : Body → Body) :
    Vocabulary (modifyBody s b f) := by
  refine ⟨?_, h.2⟩
  intro wb hwb
  rcases mem_modifyFirst _ _ _ _ hwb with hm | ⟨w, hm, rfl⟩
  · exact h.1 wb hm
  · exact h.1 w hm

theorem vocabulary_updateSentence {s : State} (h : Vocabulary s) (env : Env) :
    Vocabulary (updateSentence env s) := by
  refine vocabulary_of_forall h (fun wb hwb => ?_) rfl
  obtain ⟨w, hw, v, rfl⟩ := mem_updateSentence env s wb hwb
  exact ⟨w, hw, rfl, rfl⟩

theorem vocabulary_createWordBlock {s : State} (h : Vocabulary s) (text : String)
    (x y : ℚ) (isPalette : Bool) (ht : text ∈ chineseWords) :
    Vocabulary (createWordBlock text x y isPalette s).1 := by
  cases isPalette with
  | true =>
    refine ⟨h.1, ?_⟩
    intro el hel
    simp only [createWordBlock, if_true, List.mem_append, List.mem_singleton] at hel
    rcases hel with hel | rfl
    · exact h.2 el hel
    · exact ht
  | false =>
    refine ⟨?_, h.2⟩
    intro wb hwb
    simp only [createWordBlock, Bool.false_eq_true, if_false, List.mem_append,
      List.mem_singleton] at hwb
    rcases hwb with hwb | rfl
    · exact h.1 wb hwb
    · exact ⟨ht, ht⟩

theorem findInDocument_textContent {s : State} (h : Vocabulary s) (t : Nat)
    (target : Element) (ht : findInDocument s t = some target) :
    target.textContent ∈ chineseWords := by
  simp only [findInDocument, Option.filter_eq_some] at ht
  have hf := ht.1
  simp only [findElement] at hf
  cases hw : s.wordBlocks.find? (fun wb => wb.element.eid == t) with
  | some wb =>
    rw [hw] at hf
    cases hf
    exact (h.1 wb (List.mem_of_find?_eq_some hw)).2
  | none =>
    rw [hw] at hf
    cases hp : s.palette.find? (fun el => el.eid == t) with
    | some el =>
      rw [hp] at hf
      injection hf with hf
      rw [← hf]
      exact h.2 el (List.mem_of_find?_eq_some hp)
    | none =>
      rw [hp] at hf
      simp at hf

theorem vocabulary_startDrag {s : State} (h : Vocabulary s) (env : Env) (e : MouseEvent) :
    Vocabulary (startDrag env e s) := by
  have key : ∀ s3 : State, Vocabulary s3 →
      Vocabulary (match s3.draggedElement.bind (findElement s3) with
        | none => s3
        | some dragged =>
          match dragged.bodyId with
          | none => s3
          | some bodyId =>
            modifyBody s3 bodyId (fun b =>
              ((b.setStatic true).setVelocity ⟨0, 0⟩).setAngularVelocity 0)) := by
    intro s3 h3
    split
    · exact h3
    · split
      · exact h3
      · exact vocabulary_modifyBody h3 _ _
  unfold startDrag
  split
  · exact h
  · rename_i t _
    split
    · exact h
    · rename_i target htarget
      have htext := findInDocument_textContent h t target htarget
      have h1 : Vocabulary { s with
          isDragging := true
          draggedElement := some t
          offset := ⟨e.clientX - (env.rect target).left, e.clientY - (env.rect target).top⟩ } :=
        h
      have h2 := vocabulary_modifyElement h1 t (fun el => { el with dragging := true })
        (fun _ => rfl)
      apply key
      split
      · exact vocabulary_createWordBlock h2 _ _ _ false htext
      · exact h2

theorem vocabulary_drag {s : State} (h : Vocabulary s) (env : Env) (e : MouseEvent) :
    Vocabulary (drag env e s) := by
  unfold drag
  split
  · exact h
  · split
    · exact h
    · rename_i d _
      split
      · exact h
      · rename_i dragged _
        have h1 := vocabulary_modifyElement h d (fun el : Element =>
          { el with left := e.clientX - s.offset.x, top := e.clientY - s.offset.y })
          (fun _ => rfl)
        apply vocabulary_updateSentence
        have h2 : Vocabulary
            (match dragged.bodyId with
              | none => modifyElement s d (fun el =>
                  { el with left := e.clientX - s.offset.x, top := e.clientY - s.offset.y })
              | some bodyId => modifyBody (modifyElement s d (fun el =>
                  { el with left := e.clientX - s.offset.x, top := e.clientY - s.offset.y }))
                  bodyId (fun b => b.setPosition
                    ⟨e.clientX - s.offset.x + 40, e.clientY - s.offset.y + 40⟩)) := by
          split
          · exact h1
          · exact vocabulary_modifyBody h1 _ _
        exact vocabulary_modifyElement h2 d
          (fun el => { el with opacity := some (if isOverTrash (env.rect
            { dragged with left := e.clientX - s.offset.x, top := e.clientY - s.offset.y })
              env.trashRect then 1 / 2 else 1) })
          (fun _ => rfl)

theorem vocabulary_endDrag {s : State} (h : Vocabulary s) (env : Env) (random : ℚ) :
    Vocabulary (endDrag env random s) := by
  cases hdrag : s.isDragging with
  | false => simp only [endDrag, hdrag, Bool.not_false, if_true]; exact h
  | true =>
    cases hd : s.draggedElement with
    | none => simp only [endDrag, hdrag, hd, Bool.not_true, Bool.false_eq_true, if_false]; exact h
    | some d =>
      cases hf : findElement s d with
      | none =>
        simp only [endDrag, hdrag, hd, hf, Bool.not_true, Bool.false_eq_true, if_false]
        exact h
      | some el =>
        have h0 : Vocabulary { s with isDragging := false } := h
        have h1 := vocabulary_modifyElement h0 d (fun el => { el with dragging := false })
          (fun _ => rfl)
        cases hover : droppedOnTrash env s with
        | false =>
          rw [endDrag_release_eq env random s d el hdrag hd hf hover]
          apply vocabulary_updateSentence
          have h2 : Vocabulary
              { modifyElement { s with isDragging := false } d
                  (fun el => { el with dragging := false }) with trashDragOver := false } :=
            h1
          have h3 := vocabulary_modifyElement h2 d (fun el => { el with opacity := some 1 })
            (fun _ => rfl)
          show Vocabulary (match el.bodyId with
            | none => _
            | some bodyId => _ : State)
          split
          · exact h3
          · exact vocabulary_modifyBody h3 _ _
        | true =>
          rw [endDrag_trash_eq env random s d el hdrag hd hf hover]
          apply vocabulary_updateSentence
          have h2 : Vocabulary (match el.bodyId with
              | none => modifyElement { s with isDragging := false } d
                  (fun el => { el with dragging := false })
              | some bodyId =>
                match (modifyElement { s with isDragging := false } d
                    (fun el => { el with dragging := false })).wordBlocks.findIdx?
                    (fun wb => wb.body.id == bodyId) with
                | none => modifyElement { s with isDragging := false } d
                    (fun el => { el with dragging := false })
                | some wordBlockIndex =>
                  match (modifyElement { s with isDragging := false } d
                      (fun el => { el with dragging := false })).wordBlocks.get?
                      wordBlockIndex with
                  | none => modifyElement { s with isDragging := false } d
                      (fun el => { el with dragging := false })
                  | some wordBlock =>
                    { modifyElement { s with isDragging := false } d
                        (fun el => { el with dragging := false }) with
                      world := (modifyElement { s with isDragging := false } d
                        (fun el => { el with dragging := false })).world.erase wordBlock.body.id
                      wordBlocks := (modifyElement { s with isDragging := false } d
                        (fun el => { el with dragging := false })).wordBlocks.eraseIdx
                          wordBlockIndex
                      detached := (modifyElement { s with isDragging := false } d
                        (fun el => { el with dragging := false })).detached ++
                          [wordBlock.element] }) := by
            split
            · exact h1
            · split
              · exact h1
              · split
                · exact h1
                · exact vocabulary_of_subset h1
                    (fun wb hwb => (List.eraseIdx_sublist _ _).subset hwb) rfl
          exact vocabulary_modifyElement h2 d (fun el => { el with attached := false })
            (fun _ => rfl)

theorem vocabulary_resetPlayground {s : State} (h : Vocabulary s) (env : Env) :
    Vocabulary (resetPlayground env s) := by
  apply vocabulary_updateSentence
  exact vocabulary_of_subset h (fun wb hwb => by cases hwb) rfl

theorem vocabulary_toggleGravity {s : State} (h : Vocabulary s) :
    Vocabulary (toggleGravity s) := by
  unfold toggleGravity
  by_cases hp : s.physicsEnabled = true
  · simp only [hp, Bool.not_true, Bool.false_eq_true, if_false]
    refine vocabulary_of_forall h (fun wb hwb => ?_) rfl
    simp only [List.mem_map] at hwb
    obtain ⟨w, hw, rfl⟩ := hwb
    exact ⟨w, hw, rfl, rfl⟩
  · simp only [Bool.not_eq_true] at hp
    simp only [hp, Bool.not_false, if_true]
    refine vocabulary_of_forall h (fun wb hwb => ?_) rfl
    simp only [List.mem_map] at hwb
    obtain ⟨w, hw, rfl⟩ := hwb
    refine ⟨w, hw, ?_⟩
    split <;> exact ⟨rfl, rfl⟩

theorem vocabulary_animate {s : State} (h : Vocabulary s) (env : Env)
    (engine : Body → Body) : Vocabulary (animate env engine s) := by
  have h1 : Vocabulary (engineUpdate engine s) := by
    refine vocabulary_of_forall h (fun wb hwb => ?_) rfl
    simp only [engineUpdate, List.mem_map] at hwb
    obtain ⟨w, hw, rfl⟩ := hwb
    refine ⟨w, hw, ?_⟩
    split <;> exact ⟨rfl, rfl⟩
  unfold animate
  by_cases hp : (engineUpdate engine s).physicsEnabled = true
  · simp only [hp, if_true]
    apply vocabulary_updateSentence
    refine vocabulary_of_forall h1 (fun wb hwb => ?_) rfl
    simp only [List.mem_map] at hwb
    obtain ⟨w, hw, rfl⟩ := hwb
    exact ⟨w, hw, rfl, rfl⟩
  · simp only [hp]
    exact h1

theorem vocabulary_step {s : State} (h : Vocabulary s) (a : Action)
    (ha : a.scripted = true) : Vocabulary (step s a) := by
  cases a with
  | startDrag env e => exact vocabulary_startDrag h env e
  | drag env e => exact vocabulary_drag h env e
  | endDrag env random => exact vocabulary_endDrag h env random
  | toggleGravity => exact vocabulary_toggleGravity h
  | createWordBlock text x y =>
    exact vocabulary_createWordBlock h text x y false (by simpa [Action.scripted] using ha)
  | resetPlayground env => exact vocabulary_resetPlayground h env
  | animate env engine => exact vocabulary_animate h env engine

theorem vocabulary_run (actions : List Action)
    (hact : ∀ a ∈ actions, a.scripted = true) {s : State} (h : Vocabulary s) :
    Vocabulary (run actions s) := by
  induction actions generalizing s with
  | nil => exact h
  | cons a actions ih =>
    exact ih (fun b hb => hact b (List.mem_cons_of_mem _ hb))
      (vocabulary_step h a (hact a (List.mem_cons_self _ _)))

theorem vocabulary_init : Vocabulary init := by decide!

/-- No tile has the empty text in any state of the page: after
`init` and any sequence of calls of the handlers, of `addRandomWord` with words of the
vocabulary, of `resetPlayground`, `toggleGravity` and `animate`, every tile of the
registry has a non-empty text. -/
theorem run_texts_nonempty (actions : List Action)
    (hact : ∀ a ∈ actions, a.scripted = true) :
    ∀ wb ∈ (run actions init).wordBlocks, wb.text ≠ "" := by
  intro wb hwb htext
  have hv := (vocabulary_run actions hact vocabulary_init).1 wb hwb
  rw [htext] at hv
  exact absurd hv.1 (by decide)

end Wordcraft
